import Mathlib

/-! Registry client: account decoding and instruction encoding.

A shallow embedding of `client-go/registry/instructions.go` and of the record
types, the list methods and the write methods of
`client-go/registry/client.go`.

* Go byte slices are modelled with their backing array, so that a slice
  expression `s[lo:hi]` is checked against the capacity and an index
  expression `s[i]` against the length, as the Go run time does.
* A run-time panic is an explicit outcome of the decoders.
* The Solana library (`FindProgramAddress`, `SystemProgramID`) and the RPC
  account fetch are parameters of the functions that call them;
  `rpcGetAccountInfo` is the fetch as the library performs it on a chain.
* A method of `RegistryClient` is modelled by what it returns together with the
  list of call statements it executes, in order.
* `buildDelegateNodeAccountInstruction`, which `DelegateNode` calls and the
  sources do not define, is a parameter of `DelegateNode`.
-/

namespace Registry

/-! ## Bytes and Go slices -/

/-- One byte. -/
abbrev Byte := Fin 256

/-- Go conversion `byte(n)` of an unsigned integer: the low eight bits. -/
def toByte (n : Nat) : Byte := ⟨n % 256, Nat.mod_lt n (by decide)⟩

/-- Go conversion `uint32(n)` of a non-negative integer. -/
def toUint32 (n : Nat) : Nat := n % 2 ^ 32

/-- Go conversion `uint32(v)` of a signed integer: two's complement. -/
def int32ToUint32 (v : Int) : Nat := (v % 2 ^ 32).toNat

/-- Go conversion `uint64(v)` of a signed integer: two's complement. -/
def int64ToUint64 (v : Int) : Nat := (v % 2 ^ 64).toNat

/-- Go conversion `int32(u)` of a `uint32`. -/
def toInt32 (u : Nat) : Int := if u % 2 ^ 32 < 2 ^ 31 then (u % 2 ^ 32 : Nat) else (u % 2 ^ 32 : Nat) - 2 ^ 32

/-- Go conversion `int64(u)` of a `uint64`. -/
def toInt64 (u : Nat) : Int := if u % 2 ^ 64 < 2 ^ 63 then (u % 2 ^ 64 : Nat) else (u % 2 ^ 64 : Nat) - 2 ^ 64

/-- A Go `[]byte`: `arr` is the backing array from the first element of the
slice up to its capacity, `len` the length of the slice. -/
structure Slice where
  arr : List Byte
  len : Nat
  le : len ≤ arr.length

namespace Slice

/-- Capacity `cap(s)`. -/
def cap (s : Slice) : Nat := s.arr.length

/-- The elements of the slice, `s[0] .. s[len(s)-1]`. -/
def toList (s : Slice) : List Byte := s.arr.take s.len

/-- A slice whose capacity equals its length. -/
def ofList (l : List Byte) : Slice := ⟨l, l.length, Nat.le_refl _⟩

/-- Slice expression `s[lo:hi]`: panics (`none`) unless `lo ≤ hi ≤ cap(s)`. -/
def slice (s : Slice) (lo hi : Nat) : Option Slice :=
  if h : lo ≤ hi ∧ hi ≤ s.cap then
    some ⟨s.arr.drop lo, hi - lo, by
      have := h.2
      simp only [cap] at this
      rw [List.length_drop]
      omega⟩
  else none

/-- Slice expression `s[lo:]`: the high bound is `len(s)`. -/
def sliceFrom (s : Slice) (lo : Nat) : Option Slice :=
  if h : lo ≤ s.len then
    some ⟨s.arr.drop lo, s.len - lo, by
      have := s.le
      rw [List.length_drop]
      omega⟩
  else none

/-- Slice expression `s[:hi]`: the low bound is `0`. -/
def sliceTo (s : Slice) (hi : Nat) : Option Slice := s.slice 0 hi

/-- Index expression `s[i]`: panics (`none`) unless `i < len(s)`. -/
def index (s : Slice) (i : Nat) : Option Byte :=
  if i < s.len then s.arr[i]? else none

end Slice

/-! ## `encoding/binary`, little-endian -/

namespace LittleEndian

/-- Go `binary.LittleEndian.Uint32(b)`. -/
def Uint32 (b : Slice) : Option Nat := do
  let _ ← b.index 3
  let b0 ← b.index 0
  let b1 ← b.index 1
  let b2 ← b.index 2
  let b3 ← b.index 3
  pure (b0.val ||| b1.val <<< 8 ||| b2.val <<< 16 ||| b3.val <<< 24)

/-- Go `binary.LittleEndian.Uint64(b)`. -/
def Uint64 (b : Slice) : Option Nat := do
  let _ ← b.index 7
  let b0 ← b.index 0
  let b1 ← b.index 1
  let b2 ← b.index 2
  let b3 ← b.index 3
  let b4 ← b.index 4
  let b5 ← b.index 5
  let b6 ← b.index 6
  let b7 ← b.index 7
  pure (b0.val ||| b1.val <<< 8 ||| b2.val <<< 16 ||| b3.val <<< 24 |||
    b4.val <<< 32 ||| b5.val <<< 40 ||| b6.val <<< 48 ||| b7.val <<< 56)

/-- Go `binary.LittleEndian.PutUint32` into a fresh four-byte buffer. -/
def PutUint32 (v : Nat) : List Byte :=
  [toByte v, toByte (v >>> 8), toByte (v >>> 16), toByte (v >>> 24)]

/-- Go `binary.LittleEndian.PutUint64` into a fresh eight-byte buffer. -/
def PutUint64 (v : Nat) : List Byte :=
  [toByte v, toByte (v >>> 8), toByte (v >>> 16), toByte (v >>> 24),
   toByte (v >>> 32), toByte (v >>> 40), toByte (v >>> 48), toByte (v >>> 56)]

end LittleEndian

/-- The number a byte string denotes when read least significant byte first. -/
def leValue : List Byte → Nat
  | [] => 0
  | b :: bs => b.val + 256 * leValue bs

/-! ## Solana library types -/

/-- Go `solana.PublicKey`, a `[32]byte`. -/
structure PublicKey where
  bytes : List Byte
  size : bytes.length = 32
deriving DecidableEq

/-- Go `solana.PublicKeyFromBytes`: copies at most 32 bytes into a zeroed key. -/
def PublicKeyFromBytes (b : Slice) : PublicKey :=
  ⟨b.toList.take 32 ++ List.replicate (32 - (b.toList.take 32).length) 0, by
    rw [List.length_append, List.length_replicate, List.length_take]
    omega⟩

/-- Go `solana.AccountMeta`. -/
structure AccountMeta where
  pubkey : PublicKey
  IsWritable : Bool
  IsSigner : Bool
deriving DecidableEq

/-- Go `solana.Meta(pk)`. -/
def Meta (pk : PublicKey) : AccountMeta := ⟨pk, false, false⟩

/-- Go `(*AccountMeta).WRITE()`. -/
def AccountMeta.WRITE (m : AccountMeta) : AccountMeta := { m with IsWritable := true }

/-- Go `(*AccountMeta).SIGNER()`. -/
def AccountMeta.SIGNER (m : AccountMeta) : AccountMeta := { m with IsSigner := true }

/-- Go `solana.NewInstruction(programID, accounts, data)`. -/
structure Instruction where
  programID : PublicKey
  accounts : List AccountMeta
  data : List Byte
deriving DecidableEq

/-- The parts of the Solana library the registry package calls. -/
structure Solana where
  FindProgramAddress : List (List Byte) → PublicKey → Option (PublicKey × Byte)
  SystemProgramID : PublicKey

/-! ## Records (`client.go`) -/

/-- Go `ClientEntry`. -/
structure ClientEntry where
  Parent : PublicKey
  Registred : PublicKey
  Until : Int
  Limit : Nat
deriving DecidableEq

/-- Go `NodeEntry`; `Domain` is a Go string, a sequence of bytes. -/
structure NodeEntry where
  Parent : PublicKey
  Registred : PublicKey
  Domain : List Byte
  Online : Int
  Active : Bool
deriving DecidableEq

/-! ## `instructions.go`: constants -/

/-- Size of a client entry: discriminator + parent + registered + until + limit. -/
def ClientEntrySize : Nat := 8 + 32 + 32 + 8 + 4

/-- Size of a node entry: discriminator + parent + registered + domain length +
domain + online + active. -/
def NodeEntrySize : Nat := 8 + 32 + 32 + 4 + 253 + 4 + 1

def InitRegistryDiscriminator : List Byte := [131, 22, 4, 103, 24, 94, 163, 239]
def AddClientToRegistryDiscriminator : List Byte := [198, 64, 62, 101, 62, 204, 69, 108]
def AddNodeToRegistryDiscriminator : List Byte := [135, 249, 13, 74, 61, 190, 188, 33]
def CheckClientDiscriminator : List Byte := [56, 122, 178, 30, 199, 2, 243, 22]
def CheckNodeDiscriminator : List Byte := [62, 101, 38, 142, 134, 79, 122, 116]
def RemoveClientFromRegistryDiscriminator : List Byte := [32, 83, 79, 126, 155, 239, 104, 60]
def RemoveNodeFromRegistryDiscriminator : List Byte := [96, 10, 183, 238, 187, 248, 96, 36]
def UpdateNodeOnlineDiscriminator : List Byte := [35, 22, 232, 250, 60, 30, 62, 83]
def UpdateNodeActiveDiscriminator : List Byte := [121, 150, 132, 175, 172, 145, 197, 132]

/-! ## `instructions.go`: derived addresses -/

/-- The errors the package builds with `fmt.Errorf`. -/
inductive Error where
  | findRegistryPDA
  | findEntryPDA
  | findAuthorityNodePDA
  | getAccountInfo
  | invalidAccountDataSize (expected got : Nat)
deriving DecidableEq

/-- Go `findRegistryPDA`. -/
def findRegistryPDA (sol : Solana) (programID authority : PublicKey) (name : List Byte) :
    Option (PublicKey × Byte) :=
  sol.FindProgramAddress [authority.bytes, name] programID

/-- Go `findRegistryEntryPDA`. -/
def findRegistryEntryPDA (sol : Solana) (programID accountToAdd registry : PublicKey) :
    Option (PublicKey × Byte) :=
  sol.FindProgramAddress [accountToAdd.bytes, registry.bytes] programID

/-! ## `instructions.go`: instruction builders

`data` is the `bytes.Buffer`; `binary.Write` of a fixed-width integer appends
the bytes `PutUintN` produces for its unsigned conversion. -/

/-- Go `buildInitRegistryInstruction`. -/
def buildInitRegistryInstruction (sol : Solana) (programID authority : PublicKey)
    (name : List Byte) : Except Error (Instruction × PublicKey) :=
  match findRegistryPDA sol programID authority name with
  | none => .error .findRegistryPDA
  | some (registryPDA, _) =>
    let data : List Byte := []
    let data := data ++ InitRegistryDiscriminator
    let nameBytes := name
    let data := data ++ LittleEndian.PutUint32 (toUint32 nameBytes.length)
    let data := data ++ nameBytes
    let accounts := [
      (Meta registryPDA).WRITE,
      (Meta authority).SIGNER.WRITE,
      Meta sol.SystemProgramID]
    .ok (⟨programID, accounts, data⟩, registryPDA)

/-- Go `buildAddClientToRegistryInstruction`; `validUntilUnix` is
`validUntil.Unix()`, an `int64`. -/
def buildAddClientToRegistryInstruction (sol : Solana)
    (programID authority registry accountToAdd : PublicKey)
    (validUntilUnix : Int) (limit : Nat) : Except Error Instruction :=
  match findRegistryEntryPDA sol programID accountToAdd registry with
  | none => .error .findEntryPDA
  | some (entryPDA, _) =>
    let data : List Byte := []
    let data := data ++ AddClientToRegistryDiscriminator
    let data := data ++ accountToAdd.bytes
    let data := data ++ LittleEndian.PutUint64 (int64ToUint64 validUntilUnix)
    let data := data ++ LittleEndian.PutUint32 limit
    let accounts := [
      (Meta entryPDA).WRITE,
      Meta registry,
      (Meta authority).SIGNER.WRITE,
      Meta sol.SystemProgramID]
    .ok ⟨programID, accounts, data⟩

/-- Go `buildAddNodeToRegistryInstruction`. -/
def buildAddNodeToRegistryInstruction (sol : Solana)
    (programID authority registry accountToAdd : PublicKey)
    (domain : List Byte) : Except Error Instruction :=
  match findRegistryEntryPDA sol programID accountToAdd registry with
  | none => .error .findEntryPDA
  | some (entryPDA, _) =>
    let data : List Byte := []
    let data := data ++ AddNodeToRegistryDiscriminator
    let data := data ++ accountToAdd.bytes
    let data := data ++ LittleEndian.PutUint32 (toUint32 domain.length)
    let data := data ++ domain
    let accounts := [
      (Meta entryPDA).WRITE,
      Meta registry,
      (Meta authority).SIGNER.WRITE,
      Meta sol.SystemProgramID]
    .ok ⟨programID, accounts, data⟩

/-- Go `buildRemoveClientFromRegistryInstruction`. -/
def buildRemoveClientFromRegistryInstruction (sol : Solana)
    (programID authority registry accountToDelete : PublicKey) : Except Error Instruction :=
  match findRegistryEntryPDA sol programID accountToDelete registry with
  | none => .error .findEntryPDA
  | some (entryPDA, _) =>
    let data : List Byte := []
    let data := data ++ RemoveClientFromRegistryDiscriminator
    let data := data ++ accountToDelete.bytes
    let accounts := [
      (Meta entryPDA).WRITE,
      Meta registry,
      (Meta authority).SIGNER.WRITE]
    .ok ⟨programID, accounts, data⟩

/-- Go `buildRemoveNodeFromRegistryInstruction`. -/
def buildRemoveNodeFromRegistryInstruction (sol : Solana)
    (programID authority registry accountToDelete : PublicKey) : Except Error Instruction :=
  match findRegistryEntryPDA sol programID accountToDelete registry with
  | none => .error .findEntryPDA
  | some (entryPDA, _) =>
    let data : List Byte := []
    let data := data ++ RemoveNodeFromRegistryDiscriminator
    let data := data ++ accountToDelete.bytes
    let accounts := [
      (Meta entryPDA).WRITE,
      Meta registry,
      (Meta authority).SIGNER.WRITE]
    .ok ⟨programID, accounts, data⟩

/-- Go `buildUpdateNodeOnlineInstruction`; `value` is an `int32`. -/
def buildUpdateNodeOnlineInstruction (sol : Solana)
    (programID authority registry accountToUpdate : PublicKey)
    (value : Int) : Except Error Instruction :=
  match findRegistryEntryPDA sol programID accountToUpdate registry with
  | none => .error .findEntryPDA
  | some (entryPDA, _) =>
    let data : List Byte := []
    let data := data ++ UpdateNodeOnlineDiscriminator
    let data := data ++ accountToUpdate.bytes
    let data := data ++ LittleEndian.PutUint32 (int32ToUint32 value)
    let accounts := [
      (Meta entryPDA).WRITE,
      Meta registry,
      (Meta authority).SIGNER.WRITE]
    .ok ⟨programID, accounts, data⟩

/-- Go `buildUpdateNodeActiveInstruction`. -/
def buildUpdateNodeActiveInstruction (sol : Solana)
    (programID accountToUpdate registry authority : PublicKey)
    (active : Bool) : Except Error Instruction :=
  match findRegistryEntryPDA sol programID accountToUpdate registry with
  | none => .error .findEntryPDA
  | some (entryPDA, _) =>
    match findRegistryEntryPDA sol programID authority registry with
    | none => .error .findAuthorityNodePDA
    | some (authorityNodePDA, _) =>
      let data : List Byte := []
      let data := data ++ UpdateNodeActiveDiscriminator
      let data := data ++ accountToUpdate.bytes
      let data := if active then data ++ [1] else data ++ [0]
      let accounts := [
        (Meta entryPDA).WRITE,
        Meta registry,
        Meta authorityNodePDA,
        (Meta authority).SIGNER]
      .ok ⟨programID, accounts, data⟩

/-! ## `instructions.go`: account decoders -/

/-- What a Go function returning `(*T, error)` can do: return a value, return
`nil, nil`, return an error, or panic at run time. -/
inductive Outcome (α : Type) where
  | value (v : α)
  | absent
  | failure (e : Error)
  | panic
deriving DecidableEq

/-- The RPC account fetch `client.GetAccountInfo`: an error, or the account
info, which is `nil` (`none`) or carries the account's binary data. -/
abbrev GetAccountInfo := PublicKey → Except Unit (Option Slice)

/-- The accounts on chain: the data of the account at an address, or `none`
where the address has no account. -/
abbrev Chain := PublicKey → Option (List Byte)

/-- Go `(*rpc.Client).GetAccountInfo` of the Solana library on a chain. For an
address that has no account the node answers `value: null` and the library
returns its not-found error, never a `nil` info without an error; for an
existing account it returns the info with the account's data. -/
def rpcGetAccountInfo (chain : Chain) : GetAccountInfo := fun address =>
  match chain address with
  | none => .error ()
  | some data => .ok (some (Slice.ofList data))

/-- The body of `getClientEntry` from the `nil`/empty check onwards, on the
account info the fetch returned. -/
def getClientEntryAfterFetch (accountInfo : Option Slice) : Outcome ClientEntry :=
  match accountInfo with
  | none => .absent
  | some binary =>
    if binary.len = 0 then .absent
    else
      let data := binary
      if data.len ≠ ClientEntrySize then
        .failure (.invalidAccountDataSize ClientEntrySize data.len)
      else
        let entry : Option ClientEntry := do
          let data ← data.sliceFrom 8
          let parent := PublicKeyFromBytes (← data.sliceTo 32)
          let registred := PublicKeyFromBytes (← data.slice 32 64)
          let untilBits ← LittleEndian.Uint64 (← data.slice 64 72)
          let limit ← LittleEndian.Uint32 (← data.slice 72 76)
          pure ⟨parent, registred, toInt64 untilBits, limit⟩
        match entry with
        | some e => .value e
        | none => .panic

/-- Go `getClientEntry`. -/
def getClientEntry (sol : Solana) (client : GetAccountInfo)
    (programID registry accountToCheck : PublicKey) : Outcome ClientEntry :=
  match findRegistryEntryPDA sol programID accountToCheck registry with
  | none => .failure .findEntryPDA
  | some (entryPDA, _) =>
    match client entryPDA with
    | .error _ => .failure .getAccountInfo
    | .ok accountInfo => getClientEntryAfterFetch accountInfo

/-- The body of `getNodeEntry` from the `nil`/empty check onwards, on the
account info the fetch returned. The offsets `68+domainLen` and `72+domainLen`
are computed in `uint32`. -/
def getNodeEntryAfterFetch (accountInfo : Option Slice) : Outcome NodeEntry :=
  match accountInfo with
  | none => .absent
  | some binary =>
    if binary.len = 0 then .absent
    else
      let data := binary
      if data.len ≠ NodeEntrySize then
        .failure (.invalidAccountDataSize NodeEntrySize data.len)
      else
        let entry : Option NodeEntry := do
          let data ← data.sliceFrom 8
          let domainLen ← LittleEndian.Uint32 (← data.slice 64 68)
          let parent := PublicKeyFromBytes (← data.sliceTo 32)
          let registred := PublicKeyFromBytes (← data.slice 32 64)
          let domain ← data.slice 68 (toUint32 (68 + domainLen))
          let online ← LittleEndian.Uint32
            (← data.slice (toUint32 (68 + domainLen)) (toUint32 (72 + domainLen)))
          let active ← data.index (toUint32 (72 + domainLen))
          pure ⟨parent, registred, domain.toList, toInt32 online, active == 1⟩
        match entry with
        | some e => .value e
        | none => .panic

/-- Go `getNodeEntry`. -/
def getNodeEntry (sol : Solana) (client : GetAccountInfo)
    (programID registry accountToCheck : PublicKey) : Outcome NodeEntry :=
  match findRegistryEntryPDA sol programID accountToCheck registry with
  | none => .failure .findEntryPDA
  | some (entryPDA, _) =>
    match client entryPDA with
    | .error _ => .failure .getAccountInfo
    | .ok accountInfo => getNodeEntryAfterFetch accountInfo

/-! ## `client.go`: the client and its collaborators -/

/-- Go `solana.PrivateKey`: the seed and the public key it carries. -/
structure PrivateKey where
  seed : List Byte
  pub : PublicKey
deriving DecidableEq

/-- Go `(PrivateKey).PublicKey()`. -/
def PrivateKey.PublicKey (k : PrivateKey) : Registry.PublicKey := k.pub

/-- Go `solana.Hash`, a block hash. -/
abbrev Hash := List Byte

/-- Go `solana.Signature`. -/
abbrev Signature := List Byte

/-- Go `rpc.RPCFilter`: a `Memcmp` filter or a `DataSize` filter. -/
inductive RPCFilter where
  | Memcmp (Offset : Nat) (Bytes : List Byte)
  | DataSize (size : Nat)
deriving DecidableEq

/-- Go `solana.Transaction`, as far as the client determines it. -/
structure Transaction where
  instructions : List Instruction
  recentBlockhash : Hash
  payer : PublicKey
  signatures : List Signature
deriving DecidableEq

/-- The collaborators of the client outside the package: the RPC and websocket
clients and the transaction functions of the Solana library. Each returns its
result or an error. -/
structure Transport where
  GetLatestBlockhash : Except Unit Hash
  NewTransaction : List Instruction → Hash → PublicKey → Except Unit Transaction
  Sign : Transaction → (PublicKey → Option PrivateKey) → Except Unit Transaction
  SendAndConfirmTransaction : Transaction → Except Unit Signature
  GetProgramAccountsWithOpts :
    PublicKey → List RPCFilter → Except Unit (List (PublicKey × Slice))

/-- Go `RegistryClient`; `client` stands for the `client` and `wsClient` fields. -/
structure RegistryClient where
  programID : PublicKey
  client : Transport
  signer : PrivateKey

/-- The errors the methods of `RegistryClient` build with `fmt.Errorf`. -/
inductive ClientError where
  | domainTooLong
  | negativeOnlineValue
  | findRegistryPDA
  | buildInstruction (cause : Error)
  | getRecentBlockhash
  | createTransaction
  | signTransaction
  | sendAndConfirmTransaction
  | getProgramAccounts
deriving DecidableEq

/-- The instruction builders of `instructions.go`. -/
inductive Builder where
  | InitRegistry
  | AddClientToRegistry
  | AddNodeToRegistry
  | RemoveClientFromRegistry
  | RemoveNodeFromRegistry
  | UpdateNodeOnline
  | UpdateNodeActive
deriving DecidableEq

/-- One call statement executed by a method of `RegistryClient`: a call of
`findRegistryPDA`, of an instruction builder, or of a collaborator. -/
inductive Call where
  | findRegistryPDA (programID authority : PublicKey) (name : List Byte)
  | buildInstruction (builder : Builder)
  | GetLatestBlockhash
  | NewTransaction (instructions : List Instruction) (payer : PublicKey)
  | Sign (tx : Transaction)
  | SendAndConfirmTransaction (tx : Transaction)
  | GetProgramAccountsWithOpts (programID : PublicKey) (filters : List RPCFilter)
  | buildDelegateNodeAccountInstruction
  | NewTransactionOfNil (payer : PublicKey)
deriving DecidableEq

/-- One execution of a method: what it returned and the calls it made, in
order. -/
structure Run (α : Type) where
  result : α
  calls : List Call

/-- The execution `r` continued from a point where `before` had been called. -/
def Run.after {α : Type} (before : List Call) (r : Run α) : Run α :=
  ⟨r.result, before ++ r.calls⟩

/-- The key getter every method passes to `tx.Sign`: the held private key for
the held public key, `nil` for every other key. -/
def RegistryClient.signerGetter (c : RegistryClient) (key : PublicKey) : Option PrivateKey :=
  if key = c.signer.PublicKey then some c.signer else none

/-- The block every write method repeats after it built its instruction, from
`// Create the transaction` to `return sig, nil`. -/
def RegistryClient.sendInstruction (c : RegistryClient) (instruction : Instruction) :
    Run (Except ClientError Signature) :=
  match c.client.GetLatestBlockhash with
  | .error _ => ⟨.error .getRecentBlockhash, [.GetLatestBlockhash]⟩
  | .ok recent =>
    match c.client.NewTransaction [instruction] recent c.signer.PublicKey with
    | .error _ =>
      ⟨.error .createTransaction,
        [.GetLatestBlockhash, .NewTransaction [instruction] c.signer.PublicKey]⟩
    | .ok tx =>
      match c.client.Sign tx c.signerGetter with
      | .error _ =>
        ⟨.error .signTransaction,
          [.GetLatestBlockhash, .NewTransaction [instruction] c.signer.PublicKey, .Sign tx]⟩
      | .ok signed =>
        match c.client.SendAndConfirmTransaction signed with
        | .error _ =>
          ⟨.error .sendAndConfirmTransaction,
            [.GetLatestBlockhash, .NewTransaction [instruction] c.signer.PublicKey, .Sign tx,
             .SendAndConfirmTransaction signed]⟩
        | .ok sig =>
          ⟨.ok sig,
            [.GetLatestBlockhash, .NewTransaction [instruction] c.signer.PublicKey, .Sign tx,
             .SendAndConfirmTransaction signed]⟩

/-- Go `(*RegistryClient).AddNodeToRegistry`. -/
def RegistryClient.AddNodeToRegistry (sol : Solana) (c : RegistryClient)
    (registryName : List Byte) (accountToAdd : PublicKey) (domain : List Byte) :
    Run (Except ClientError Signature) :=
  if domain.length > 253 then ⟨.error .domainTooLong, []⟩
  else
    match findRegistryPDA sol c.programID c.signer.PublicKey registryName with
    | none =>
      ⟨.error .findRegistryPDA, [.findRegistryPDA c.programID c.signer.PublicKey registryName]⟩
    | some (registryPDA, _) =>
      match buildAddNodeToRegistryInstruction sol c.programID c.signer.PublicKey registryPDA
          accountToAdd domain with
      | .error e =>
        ⟨.error (.buildInstruction e),
          [.findRegistryPDA c.programID c.signer.PublicKey registryName,
           .buildInstruction .AddNodeToRegistry]⟩
      | .ok instruction =>
        (c.sendInstruction instruction).after
          [.findRegistryPDA c.programID c.signer.PublicKey registryName,
           .buildInstruction .AddNodeToRegistry]

/-- Go `(*RegistryClient).UpdateNodeOnline`; `value` is an `int32`. The
instruction is built with `accountToUpdate` in the authority position. -/
def RegistryClient.UpdateNodeOnline (sol : Solana) (c : RegistryClient)
    (registryName : List Byte) (authority accountToUpdate : PublicKey) (value : Int) :
    Run (Except ClientError Signature) :=
  if value < 0 then ⟨.error .negativeOnlineValue, []⟩
  else
    match findRegistryPDA sol c.programID authority registryName with
    | none => ⟨.error .findRegistryPDA, [.findRegistryPDA c.programID authority registryName]⟩
    | some (registryPDA, _) =>
      match buildUpdateNodeOnlineInstruction sol c.programID accountToUpdate registryPDA
          accountToUpdate value with
      | .error e =>
        ⟨.error (.buildInstruction e),
          [.findRegistryPDA c.programID authority registryName,
           .buildInstruction .UpdateNodeOnline]⟩
      | .ok instruction =>
        (c.sendInstruction instruction).after
          [.findRegistryPDA c.programID authority registryName,
           .buildInstruction .UpdateNodeOnline]

/-- Go `(*RegistryClient).CreateRegistry`. -/
def RegistryClient.CreateRegistry (sol : Solana) (c : RegistryClient) (name : List Byte) :
    Run (Except ClientError Signature) :=
  match buildInitRegistryInstruction sol c.programID c.signer.PublicKey name with
  | .error e => ⟨.error (.buildInstruction e), [.buildInstruction .InitRegistry]⟩
  | .ok (instruction, _) =>
    (c.sendInstruction instruction).after [.buildInstruction .InitRegistry]

/-- Go `(*RegistryClient).AddClientToRegistry`; `validUntilUnix` is
`validUntil.Unix()`. -/
def RegistryClient.AddClientToRegistry (sol : Solana) (c : RegistryClient)
    (registryName : List Byte) (accountToAdd : PublicKey) (validUntilUnix : Int)
    (limit : Nat) : Run (Except ClientError Signature) :=
  match findRegistryPDA sol c.programID c.signer.PublicKey registryName with
  | none =>
    ⟨.error .findRegistryPDA, [.findRegistryPDA c.programID c.signer.PublicKey registryName]⟩
  | some (registryPDA, _) =>
    match buildAddClientToRegistryInstruction sol c.programID c.signer.PublicKey registryPDA
        accountToAdd validUntilUnix limit with
    | .error e =>
      ⟨.error (.buildInstruction e),
        [.findRegistryPDA c.programID c.signer.PublicKey registryName,
         .buildInstruction .AddClientToRegistry]⟩
    | .ok instruction =>
      (c.sendInstruction instruction).after
        [.findRegistryPDA c.programID c.signer.PublicKey registryName,
         .buildInstruction .AddClientToRegistry]

/-- Go `(*RegistryClient).DeleteClientFromRegistry`. -/
def RegistryClient.DeleteClientFromRegistry (sol : Solana) (c : RegistryClient)
    (registryName : List Byte) (accountToDelete : PublicKey) :
    Run (Except ClientError Signature) :=
  match findRegistryPDA sol c.programID c.signer.PublicKey registryName with
  | none =>
    ⟨.error .findRegistryPDA, [.findRegistryPDA c.programID c.signer.PublicKey registryName]⟩
  | some (registryPDA, _) =>
    match buildRemoveClientFromRegistryInstruction sol c.programID c.signer.PublicKey
        registryPDA accountToDelete with
    | .error e =>
      ⟨.error (.buildInstruction e),
        [.findRegistryPDA c.programID c.signer.PublicKey registryName,
         .buildInstruction .RemoveClientFromRegistry]⟩
    | .ok instruction =>
      (c.sendInstruction instruction).after
        [.findRegistryPDA c.programID c.signer.PublicKey registryName,
         .buildInstruction .RemoveClientFromRegistry]

/-- Go `(*RegistryClient).DeleteNodeFromRegistry`. -/
def RegistryClient.DeleteNodeFromRegistry (sol : Solana) (c : RegistryClient)
    (registryName : List Byte) (accountToDelete : PublicKey) :
    Run (Except ClientError Signature) :=
  match findRegistryPDA sol c.programID c.signer.PublicKey registryName with
  | none =>
    ⟨.error .findRegistryPDA, [.findRegistryPDA c.programID c.signer.PublicKey registryName]⟩
  | some (registryPDA, _) =>
    match buildRemoveNodeFromRegistryInstruction sol c.programID c.signer.PublicKey
        registryPDA accountToDelete with
    | .error e =>
      ⟨.error (.buildInstruction e),
        [.findRegistryPDA c.programID c.signer.PublicKey registryName,
         .buildInstruction .RemoveNodeFromRegistry]⟩
    | .ok instruction =>
      (c.sendInstruction instruction).after
        [.findRegistryPDA c.programID c.signer.PublicKey registryName,
         .buildInstruction .RemoveNodeFromRegistry]

/-- Go `(*RegistryClient).UpdateNodeActive`. The registry address is derived
from `authority`; the instruction is built with the held key in the authority
position. -/
def RegistryClient.UpdateNodeActive (sol : Solana) (c : RegistryClient)
    (registryName : List Byte) (authority accountToUpdate : PublicKey) (active : Bool) :
    Run (Except ClientError Signature) :=
  match findRegistryPDA sol c.programID authority registryName with
  | none => ⟨.error .findRegistryPDA, [.findRegistryPDA c.programID authority registryName]⟩
  | some (registryPDA, _) =>
    match buildUpdateNodeActiveInstruction sol c.programID accountToUpdate registryPDA
        c.signer.PublicKey active with
    | .error e =>
      ⟨.error (.buildInstruction e),
        [.findRegistryPDA c.programID authority registryName,
         .buildInstruction .UpdateNodeActive]⟩
    | .ok instruction =>
      (c.sendInstruction instruction).after
        [.findRegistryPDA c.programID authority registryName,
         .buildInstruction .UpdateNodeActive]

/-- What `DelegateNode` uses and the sources do not define: the builder
`buildDelegateNodeAccountInstruction`, which returns an instruction or, with an
error, the nil instruction, and what the library's `NewTransaction` returns for
the list that holds the nil instruction. -/
structure DelegateNodeDeps where
  buildDelegateNodeAccountInstruction :
    PublicKey → PublicKey → PublicKey → PublicKey → Except Error Instruction
  NewTransactionOfNil : Hash → PublicKey → Except Unit Transaction

/-- The block from `// Create the transaction` to `return sig, nil` when the
instruction it is given is nil. -/
def RegistryClient.sendNilInstruction (c : RegistryClient) (deps : DelegateNodeDeps) :
    Run (Except ClientError Signature) :=
  match c.client.GetLatestBlockhash with
  | .error _ => ⟨.error .getRecentBlockhash, [.GetLatestBlockhash]⟩
  | .ok recent =>
    match deps.NewTransactionOfNil recent c.signer.PublicKey with
    | .error _ =>
      ⟨.error .createTransaction,
        [.GetLatestBlockhash, .NewTransactionOfNil c.signer.PublicKey]⟩
    | .ok tx =>
      match c.client.Sign tx c.signerGetter with
      | .error _ =>
        ⟨.error .signTransaction,
          [.GetLatestBlockhash, .NewTransactionOfNil c.signer.PublicKey, .Sign tx]⟩
      | .ok signed =>
        match c.client.SendAndConfirmTransaction signed with
        | .error _ =>
          ⟨.error .sendAndConfirmTransaction,
            [.GetLatestBlockhash, .NewTransactionOfNil c.signer.PublicKey, .Sign tx,
             .SendAndConfirmTransaction signed]⟩
        | .ok sig =>
          ⟨.ok sig,
            [.GetLatestBlockhash, .NewTransactionOfNil c.signer.PublicKey, .Sign tx,
             .SendAndConfirmTransaction signed]⟩

/-- Go `(*RegistryClient).DelegateNode`. The error the builder returns is
assigned to `err` and overwritten by the block hash fetch without being read,
so the method goes on with whatever instruction the builder returned. -/
def RegistryClient.DelegateNode (sol : Solana) (deps : DelegateNodeDeps) (c : RegistryClient)
    (registryName : List Byte) (account : PublicKey) : Run (Except ClientError Signature) :=
  match findRegistryPDA sol c.programID c.signer.PublicKey registryName with
  | none =>
    ⟨.error .findRegistryPDA, [.findRegistryPDA c.programID c.signer.PublicKey registryName]⟩
  | some (registryPDA, _) =>
    match deps.buildDelegateNodeAccountInstruction c.programID c.signer.PublicKey registryPDA
        account with
    | .error _ =>
      (c.sendNilInstruction deps).after
        [.findRegistryPDA c.programID c.signer.PublicKey registryName,
         .buildDelegateNodeAccountInstruction]
    | .ok instruction =>
      (c.sendInstruction instruction).after
        [.findRegistryPDA c.programID c.signer.PublicKey registryName,
         .buildDelegateNodeAccountInstruction]

/-- A call of one of the eight write methods of `RegistryClient`, with its
arguments. -/
inductive WriteOp where
  | CreateRegistry (name : List Byte)
  | AddClientToRegistry (registryName : List Byte) (accountToAdd : PublicKey)
      (validUntilUnix : Int) (limit : Nat)
  | AddNodeToRegistry (registryName : List Byte) (accountToAdd : PublicKey)
      (domain : List Byte)
  | DelegateNode (registryName : List Byte) (account : PublicKey)
  | DeleteClientFromRegistry (registryName : List Byte) (accountToDelete : PublicKey)
  | DeleteNodeFromRegistry (registryName : List Byte) (accountToDelete : PublicKey)
  | UpdateNodeOnline (registryName : List Byte) (authority accountToUpdate : PublicKey)
      (value : Int)
  | UpdateNodeActive (registryName : List Byte) (authority accountToUpdate : PublicKey)
      (active : Bool)

/-- The execution of a write method call. -/
def RegistryClient.write (sol : Solana) (deps : DelegateNodeDeps) (c : RegistryClient) :
    WriteOp → Run (Except ClientError Signature)
  | .CreateRegistry name => c.CreateRegistry sol name
  | .AddClientToRegistry registryName accountToAdd validUntilUnix limit =>
    c.AddClientToRegistry sol registryName accountToAdd validUntilUnix limit
  | .AddNodeToRegistry registryName accountToAdd domain =>
    c.AddNodeToRegistry sol registryName accountToAdd domain
  | .DelegateNode registryName account => c.DelegateNode sol deps registryName account
  | .DeleteClientFromRegistry registryName accountToDelete =>
    c.DeleteClientFromRegistry sol registryName accountToDelete
  | .DeleteNodeFromRegistry registryName accountToDelete =>
    c.DeleteNodeFromRegistry sol registryName accountToDelete
  | .UpdateNodeOnline registryName authority accountToUpdate value =>
    c.UpdateNodeOnline sol registryName authority accountToUpdate value
  | .UpdateNodeActive registryName authority accountToUpdate active =>
    c.UpdateNodeActive sol registryName authority accountToUpdate active

/-- What a list method can do: return the entries, return an error, or panic
at run time. -/
inductive Listing (α : Type) where
  | entries (es : List α)
  | failure (e : ClientError)
  | panic
deriving DecidableEq

/-- The struct literal in the loop of `ListClientsInRegistry`, on account data
that passed the size check of the loop. -/
def listClientsEntry (data : Slice) : Option ClientEntry := do
  let data ← data.sliceFrom 8
  let parent := PublicKeyFromBytes (← data.sliceTo 32)
  let registred := PublicKeyFromBytes (← data.slice 32 64)
  let untilBits ← LittleEndian.Uint64 (← data.slice 64 72)
  let limit ← LittleEndian.Uint32 (← data.slice 72 76)
  pure ⟨parent, registred, toInt64 untilBits, limit⟩

/-- The loop of `ListClientsInRegistry` over the accounts still to visit, with
the entries appended so far. -/
def listClientsLoop : List (PublicKey × Slice) → List ClientEntry → Listing ClientEntry
  | [], entries => .entries entries
  | acc :: accounts, entries =>
    let data := acc.2
    if data.len ≠ ClientEntrySize then listClientsLoop accounts entries
    else
      match listClientsEntry data with
      | none => .panic
      | some entry => listClientsLoop accounts (entries ++ [entry])

/-- Go `(*RegistryClient).ListClientsInRegistry`. -/
def RegistryClient.ListClientsInRegistry (sol : Solana) (c : RegistryClient)
    (registryName : List Byte) : Run (Listing ClientEntry) :=
  match findRegistryPDA sol c.programID c.signer.PublicKey registryName with
  | none =>
    ⟨.failure .findRegistryPDA, [.findRegistryPDA c.programID c.signer.PublicKey registryName]⟩
  | some (registryPDA, _) =>
    let filters := [RPCFilter.Memcmp 8 registryPDA.bytes, RPCFilter.DataSize ClientEntrySize]
    match c.client.GetProgramAccountsWithOpts c.programID filters with
    | .error _ =>
      ⟨.failure .getProgramAccounts,
        [.findRegistryPDA c.programID c.signer.PublicKey registryName,
         .GetProgramAccountsWithOpts c.programID filters]⟩
    | .ok accounts =>
      ⟨listClientsLoop accounts [],
        [.findRegistryPDA c.programID c.signer.PublicKey registryName,
         .GetProgramAccountsWithOpts c.programID filters]⟩

/-- The struct literal in the loop of `ListNodesInRegistry`, with the domain
length read before it, on account data that passed the size check of the loop.
The offsets `68+domainLen` and `72+domainLen` are computed in `uint32`. -/
def listNodesEntry (data : Slice) : Option NodeEntry := do
  let data ← data.sliceFrom 8
  let domainLen ← LittleEndian.Uint32 (← data.slice 64 68)
  let parent := PublicKeyFromBytes (← data.sliceTo 32)
  let registred := PublicKeyFromBytes (← data.slice 32 64)
  let domain ← data.slice 68 (toUint32 (68 + domainLen))
  let online ← LittleEndian.Uint32
    (← data.slice (toUint32 (68 + domainLen)) (toUint32 (72 + domainLen)))
  let active ← data.index (toUint32 (72 + domainLen))
  pure ⟨parent, registred, domain.toList, toInt32 online, active == 1⟩

/-- The loop of `ListNodesInRegistry` over the accounts still to visit, with the
entries appended so far. -/
def listNodesLoop : List (PublicKey × Slice) → List NodeEntry → Listing NodeEntry
  | [], entries => .entries entries
  | acc :: accounts, entries =>
    let data := acc.2
    if data.len ≠ NodeEntrySize then listNodesLoop accounts entries
    else
      match listNodesEntry data with
      | none => .panic
      | some entry => listNodesLoop accounts (entries ++ [entry])

/-- Go `(*RegistryClient).ListNodesInRegistry`. -/
def RegistryClient.ListNodesInRegistry (sol : Solana) (c : RegistryClient)
    (registryName : List Byte) : Run (Listing NodeEntry) :=
  match findRegistryPDA sol c.programID c.signer.PublicKey registryName with
  | none =>
    ⟨.failure .findRegistryPDA, [.findRegistryPDA c.programID c.signer.PublicKey registryName]⟩
  | some (registryPDA, _) =>
    let filters := [RPCFilter.Memcmp 8 registryPDA.bytes, RPCFilter.DataSize NodeEntrySize]
    match c.client.GetProgramAccountsWithOpts c.programID filters with
    | .error _ =>
      ⟨.failure .getProgramAccounts,
        [.findRegistryPDA c.programID c.signer.PublicKey registryName,
         .GetProgramAccountsWithOpts c.programID filters]⟩
    | .ok accounts =>
      ⟨listNodesLoop accounts [],
        [.findRegistryPDA c.programID c.signer.PublicKey registryName,
         .GetProgramAccountsWithOpts c.programID filters]⟩

/-! ## Specification vocabulary -/

/-- The bytes `l[lo:hi]` of a byte string. -/
def subBytes (l : List Byte) (lo hi : Nat) : List Byte := (l.drop lo).take (hi - lo)

/-- Modelled from the spec: the writer of client-entry accounts is the on-chain
program, which is not among the client sources. The record is written as the
8-byte discriminator, the two 32-byte addresses, `until` as a 64-bit and
`limit` as a 32-bit little-endian integer, with no padding. -/
def writeClientEntry (disc : List Byte) (e : ClientEntry) : List Byte :=
  disc ++ e.Parent.bytes ++ e.Registred.bytes ++
    LittleEndian.PutUint64 (int64ToUint64 e.Until) ++ LittleEndian.PutUint32 e.Limit

/-- Modelled from the spec: the writer of node-entry accounts is the on-chain
program, which is not among the client sources. The record is written as the
8-byte discriminator, the two 32-byte addresses, a 4-byte little-endian length
prefix followed by the domain bytes, `online` as a 32-bit little-endian integer
and one flag byte `1`/`0`, with no padding. -/
def writeNodeEntry (disc : List Byte) (e : NodeEntry) : List Byte :=
  disc ++ e.Parent.bytes ++ e.Registred.bytes ++
    LittleEndian.PutUint32 e.Domain.length ++ e.Domain ++
    LittleEndian.PutUint32 (int32ToUint32 e.Online) ++ [if e.Active then 1 else 0]

/-- The account data a scan filter selects: a `Memcmp` filter selects data whose
bytes from `Offset` on equal `Bytes`, a `DataSize` filter data of exactly that
size. -/
def RPCFilter.selects (f : RPCFilter) (data : List Byte) : Prop :=
  match f with
  | .Memcmp offset bytes => subBytes data offset (offset + bytes.length) = bytes
  | .DataSize size => data.length = size

/-- The discriminator constant each builder of `instructions.go` writes first. -/
def Builder.discriminator : Builder → List Byte
  | .InitRegistry => InitRegistryDiscriminator
  | .AddClientToRegistry => AddClientToRegistryDiscriminator
  | .AddNodeToRegistry => AddNodeToRegistryDiscriminator
  | .RemoveClientFromRegistry => RemoveClientFromRegistryDiscriminator
  | .RemoveNodeFromRegistry => RemoveNodeFromRegistryDiscriminator
  | .UpdateNodeOnline => UpdateNodeOnlineDiscriminator
  | .UpdateNodeActive => UpdateNodeActiveDiscriminator

/-- The instructions a builder can produce: `Builds sol b ins` holds when the
builder `b` returns `ins` for some arguments. -/
inductive Builds (sol : Solana) : Builder → Instruction → Prop where
  | InitRegistry (programID authority : PublicKey) (name : List Byte)
      (ins : Instruction) (registryPDA : PublicKey)
      (h : buildInitRegistryInstruction sol programID authority name = .ok (ins, registryPDA)) :
      Builds sol .InitRegistry ins
  | AddClientToRegistry (programID authority registry accountToAdd : PublicKey)
      (validUntilUnix : Int) (limit : Nat) (ins : Instruction)
      (h : buildAddClientToRegistryInstruction sol programID authority registry accountToAdd
        validUntilUnix limit = .ok ins) :
      Builds sol .AddClientToRegistry ins
  | AddNodeToRegistry (programID authority registry accountToAdd : PublicKey)
      (domain : List Byte) (ins : Instruction)
      (h : buildAddNodeToRegistryInstruction sol programID authority registry accountToAdd
        domain = .ok ins) :
      Builds sol .AddNodeToRegistry ins
  | RemoveClientFromRegistry (programID authority registry accountToDelete : PublicKey)
      (ins : Instruction)
      (h : buildRemoveClientFromRegistryInstruction sol programID authority registry
        accountToDelete = .ok ins) :
      Builds sol .RemoveClientFromRegistry ins
  | RemoveNodeFromRegistry (programID authority registry accountToDelete : PublicKey)
      (ins : Instruction)
      (h : buildRemoveNodeFromRegistryInstruction sol programID authority registry
        accountToDelete = .ok ins) :
      Builds sol .RemoveNodeFromRegistry ins
  | UpdateNodeOnline (programID authority registry accountToUpdate : PublicKey)
      (value : Int) (ins : Instruction)
      (h : buildUpdateNodeOnlineInstruction sol programID authority registry accountToUpdate
        value = .ok ins) :
      Builds sol .UpdateNodeOnline ins
  | UpdateNodeActive (programID accountToUpdate registry authority : PublicKey)
      (active : Bool) (ins : Instruction)
      (h : buildUpdateNodeActiveInstruction sol programID accountToUpdate registry authority
        active = .ok ins) :
      Builds sol .UpdateNodeActive ins

/-- The calls a method makes without a collaborator: `findRegistryPDA` and the
instruction builders. -/
def Call.isLocal : Call → Bool
  | .findRegistryPDA _ _ _ => true
  | .buildInstruction _ => true
  | .buildDelegateNodeAccountInstruction => true
  | _ => false

/-- Modelled from the spec: the transaction functions of the Solana library are
not part of the sources. As far as the client relies on them, `NewTransaction`
makes a transaction of the instructions and the fee payer it is given, and
`Sign` asks the key getter for the private key of every account an instruction
of the transaction marks as signer and fails when the getter has none. -/
structure Transport.SignsAsSpecified (t : Transport) : Prop where
  newTransaction : ∀ (instructions : List Instruction) (recent : Hash) (payer : PublicKey)
    (tx : Transaction), t.NewTransaction instructions recent payer = .ok tx →
    tx.instructions = instructions ∧ tx.payer = payer
  sign : ∀ (tx : Transaction) (getter : PublicKey → Option PrivateKey)
    (ins : Instruction) (m : AccountMeta), ins ∈ tx.instructions → m ∈ ins.accounts →
    m.IsSigner = true → getter m.pubkey = none → t.Sign tx getter = .error ()

/-! ## Sample data -/

/-- The key whose 32 bytes all equal `x`. -/
def sampleKey (x : Byte) : PublicKey := ⟨List.replicate 32 x, List.length_replicate 32 x⟩

/-- A library whose address derivation always succeeds. -/
def sampleSolana : Solana :=
  ⟨fun seeds _ => some (sampleKey (toByte (seeds.map List.length).sum), 255), sampleKey 0⟩

/-- A library whose derived address depends on the first byte of every seed. -/
def sampleDeriver : Solana :=
  ⟨fun seeds _ => some (sampleKey (toByte (seeds.map fun s => (s.headD 0).val).sum), 254),
   sampleKey 0⟩

/-- A client-entry blob: `until = -2`, `limit = 100`. -/
def sampleClientBlob : List Byte :=
  List.replicate 8 9 ++ List.replicate 32 1 ++ List.replicate 32 2 ++
    [254, 255, 255, 255, 255, 255, 255, 255] ++ [100, 0, 0, 0]

/-- A node-entry blob of `NodeEntrySize` bytes declaring the domain length `L`,
every other byte being `1`. -/
def sampleNodeBlob (L : Nat) : List Byte :=
  List.replicate 72 1 ++ LittleEndian.PutUint32 L ++ List.replicate 258 1

/-- A node-entry blob of exactly `8 + 32 + 32 + 4 + L + 4 + 1` bytes declaring
the domain length `L`, every other byte being `1`. -/
def sampleTightNodeBlob (L : Nat) : List Byte :=
  List.replicate 72 1 ++ LittleEndian.PutUint32 L ++ List.replicate (L + 4 + 1) 1

/-- An 8-byte account discriminator. -/
def sampleAccountDiscriminator : List Byte := [9, 8, 7, 6, 5, 4, 3, 2]

/-- A client entry. -/
def sampleClientEntry : ClientEntry := ⟨sampleKey 1, sampleKey 2, -2, 100⟩

/-- A node entry with the five-byte domain `n1.io`. -/
def sampleNodeEntry : NodeEntry := ⟨sampleKey 1, sampleKey 2, [110, 49, 46, 105, 111], -7, true⟩

/-- A chain whose only account is the one at `address`, holding `data`. -/
def sampleChain (address : PublicKey) (data : List Byte) : Chain :=
  fun a => if a = address then some data else none

/-- An account fetch that returns the given data for every address. -/
def sampleFetch (data : List Byte) : GetAccountInfo := fun _ => .ok (some (Slice.ofList data))

/-- A client-entry blob whose parent is `sampleKey 99`. -/
def sampleListedClientBlob : List Byte :=
  List.replicate 8 9 ++ List.replicate 32 99 ++ List.replicate 32 2 ++
    [254, 255, 255, 255, 255, 255, 255, 255] ++ [100, 0, 0, 0]

/-- A transport on which every call succeeds; a scan returns `accounts`. -/
def sampleTransport (accounts : List (PublicKey × Slice)) : Transport :=
  ⟨.ok [7], fun ins h payer => .ok ⟨ins, h, payer, []⟩, fun tx _ => .ok tx,
   fun _ => .ok [1], fun _ _ => .ok accounts⟩

/-- A client holding the key pair of `sampleKey 2`. -/
def sampleRegistryClient (accounts : List (PublicKey × Slice)) : RegistryClient :=
  ⟨sampleKey 1, sampleTransport accounts, ⟨[5], sampleKey 2⟩⟩

/-- A transport on which every call succeeds, except that `Sign` fails when the
key getter has no private key for an account that an instruction of the
transaction marks as signer. -/
def sampleSigningTransport : Transport :=
  ⟨.ok [7], fun ins h payer => .ok ⟨ins, h, payer, []⟩,
   fun tx getter =>
    if tx.instructions.all fun i => i.accounts.all fun m =>
        !m.IsSigner || (getter m.pubkey).isSome
    then .ok tx else .error (),
   fun _ => .ok [1], fun _ _ => .ok []⟩

/-- A client holding the key pair of `sampleKey 2`, on `sampleSigningTransport`. -/
def sampleSigningClient : RegistryClient :=
  ⟨sampleKey 1, sampleSigningTransport, ⟨[5], sampleKey 2⟩⟩

/-- A delegate-node builder that fails, with a library that rejects the nil
instruction. -/
def sampleFailingDelegate : DelegateNodeDeps :=
  ⟨fun _ _ _ _ => .error .findEntryPDA, fun _ _ => .error ()⟩

/-- A transport whose block hash fetch fails. -/
def sampleOfflineTransport : Transport :=
  ⟨.error (), fun ins h payer => .ok ⟨ins, h, payer, []⟩, fun tx _ => .ok tx,
   fun _ => .error (), fun _ _ => .error ()⟩

end Registry

/-! # Lemmas -/

namespace Registry

/-! ## Little-endian arithmetic -/

theorem lor_shiftLeft (x b k : Nat) (hx : x < 2 ^ k) : x ||| b <<< k = x + 2 ^ k * b := by
  rw [Nat.lor_comm, Nat.shiftLeft_eq, Nat.mul_comm, ← Nat.mul_add_lt_is_or hx, Nat.add_comm]

theorem lor4 (b0 b1 b2 b3 : Byte) :
    b0.val ||| b1.val <<< 8 ||| b2.val <<< 16 ||| b3.val <<< 24
      = leValue [b0, b1, b2, b3] := by
  have h0 := b0.isLt
  have h1 := b1.isLt
  have h2 := b2.isLt
  have h3 := b3.isLt
  rw [lor_shiftLeft _ _ 8 (by omega), lor_shiftLeft _ _ 16 (by omega),
    lor_shiftLeft _ _ 24 (by omega)]
  simp only [leValue]
  omega

theorem lor8 (b0 b1 b2 b3 b4 b5 b6 b7 : Byte) :
    b0.val ||| b1.val <<< 8 ||| b2.val <<< 16 ||| b3.val <<< 24 |||
      b4.val <<< 32 ||| b5.val <<< 40 ||| b6.val <<< 48 ||| b7.val <<< 56
      = leValue [b0, b1, b2, b3, b4, b5, b6, b7] := by
  have h0 := b0.isLt
  have h1 := b1.isLt
  have h2 := b2.isLt
  have h3 := b3.isLt
  have h4 := b4.isLt
  have h5 := b5.isLt
  have h6 := b6.isLt
  rw [lor_shiftLeft _ _ 8 (by omega), lor_shiftLeft _ _ 16 (by omega),
    lor_shiftLeft _ _ 24 (by omega), lor_shiftLeft _ _ 32 (by omega),
    lor_shiftLeft _ _ 40 (by omega), lor_shiftLeft _ _ 48 (by omega),
    lor_shiftLeft _ _ 56 (by omega)]
  simp only [leValue]
  omega

theorem leValue_lt (l : List Byte) : leValue l < 256 ^ l.length := by
  induction l with
  | nil => simp [leValue]
  | cons b bs ih =>
    have hb := b.isLt
    simp only [leValue, List.length_cons, pow_succ]
    omega

theorem leValue_PutUint32 (v : Nat) : leValue (LittleEndian.PutUint32 v) = v % 2 ^ 32 := by
  simp only [LittleEndian.PutUint32, leValue, toByte, Nat.shiftRight_eq_div_pow]
  omega

theorem leValue_PutUint64 (v : Nat) : leValue (LittleEndian.PutUint64 v) = v % 2 ^ 64 := by
  simp only [LittleEndian.PutUint64, leValue, toByte, Nat.shiftRight_eq_div_pow]
  omega

theorem toInt64_int64ToUint64 (v : Int) (h1 : -(2 ^ 63) ≤ v) (h2 : v < 2 ^ 63) :
    toInt64 (int64ToUint64 v) = v := by
  unfold toInt64 int64ToUint64
  have h : ((v % 2 ^ 64).toNat % 2 ^ 64 : Nat) = (v % 2 ^ 64).toNat := by
    apply Nat.mod_eq_of_lt
    omega
  rw [h]
  split <;> omega

theorem toInt32_int32ToUint32 (v : Int) (h1 : -(2 ^ 31) ≤ v) (h2 : v < 2 ^ 31) :
    toInt32 (int32ToUint32 v) = v := by
  unfold toInt32 int32ToUint32
  have h : ((v % 2 ^ 32).toNat % 2 ^ 32 : Nat) = (v % 2 ^ 32).toNat := by
    apply Nat.mod_eq_of_lt
    omega
  rw [h]
  split <;> omega

theorem toInt64_spec (u : Nat) :
    -(2 ^ 63) ≤ toInt64 u ∧ toInt64 u < 2 ^ 63 ∧ toInt64 u % 2 ^ 64 = ((u % 2 ^ 64 : Nat) : Int) := by
  unfold toInt64
  split <;> omega

theorem toInt32_spec (u : Nat) :
    -(2 ^ 31) ≤ toInt32 u ∧ toInt32 u < 2 ^ 31 ∧ toInt32 u % 2 ^ 32 = ((u % 2 ^ 32 : Nat) : Int) := by
  unfold toInt32
  split <;> omega

/-! ## Reading from slices -/

theorem Slice.length_toList (s : Slice) : s.toList.length = s.len := by
  have := s.le
  simp only [Slice.toList, List.length_take]
  omega

theorem Slice.toList_ofList (l : List Byte) : (Slice.ofList l).toList = l := by
  simp [Slice.toList, Slice.ofList]

theorem Slice.slice_some (s : Slice) (lo hi : Nat) (h1 : lo ≤ hi) (h2 : hi ≤ s.len) :
    ∃ t, s.slice lo hi = some t ∧ t.len = hi - lo ∧
      t.toList = (s.toList.drop lo).take (hi - lo) := by
  have hle := s.le
  have hc : lo ≤ hi ∧ hi ≤ s.cap := ⟨h1, by simp only [Slice.cap]; omega⟩
  refine ⟨_, dif_pos hc, rfl, ?_⟩
  simp only [Slice.toList, List.drop_take, List.take_take]
  congr 1
  omega

theorem Slice.sliceTo_some (s : Slice) (hi : Nat) (h2 : hi ≤ s.len) :
    ∃ t, s.sliceTo hi = some t ∧ t.len = hi ∧ t.toList = s.toList.take hi := by
  obtain ⟨t, h, hl, ht⟩ := s.slice_some 0 hi (Nat.zero_le _) h2
  exact ⟨t, h, by simpa using hl, by simpa using ht⟩

theorem Slice.sliceFrom_some (s : Slice) (lo : Nat) (h : lo ≤ s.len) :
    ∃ t, s.sliceFrom lo = some t ∧ t.len = s.len - lo ∧ t.toList = s.toList.drop lo := by
  refine ⟨_, dif_pos h, rfl, ?_⟩
  simp only [Slice.toList, List.drop_take]

theorem Slice.slice_isSome (s : Slice) (lo hi : Nat) (t : Slice) (h : s.slice lo hi = some t) :
    lo ≤ hi ∧ hi ≤ s.cap := by
  unfold Slice.slice at h
  split at h
  · assumption
  · cases h

theorem Slice.index_lt (s : Slice) (i : Nat) (b : Byte) (h : s.index i = some b) :
    i < s.len := by
  unfold Slice.index at h
  split at h
  · assumption
  · cases h

theorem Slice.index_eq (s : Slice) (i : Nat) (h : i < s.len) :
    s.index i = s.toList[i]? := by
  simp only [Slice.index, h, if_true, Slice.toList, List.getElem?_take]

theorem Slice.index_none (s : Slice) (i : Nat) (h : s.len ≤ i) : s.index i = none := by
  simp only [Slice.index, Nat.not_lt.mpr h, if_false]

theorem Uint32_some (b : Slice) (h : b.len = 4) :
    LittleEndian.Uint32 b = some (leValue b.toList) := by
  have hl := b.length_toList
  rw [h] at hl
  match hb : b.toList, hl with
  | [b0, b1, b2, b3], _ =>
    simp only [LittleEndian.Uint32, Slice.index_eq b _ (show 0 < b.len by omega),
      Slice.index_eq b _ (show 1 < b.len by omega), Slice.index_eq b _ (show 2 < b.len by omega),
      Slice.index_eq b _ (show 3 < b.len by omega), hb]
    simp [lor4]

theorem Uint64_some (b : Slice) (h : b.len = 8) :
    LittleEndian.Uint64 b = some (leValue b.toList) := by
  have hl := b.length_toList
  rw [h] at hl
  match hb : b.toList, hl with
  | [b0, b1, b2, b3, b4, b5, b6, b7], _ =>
    simp only [LittleEndian.Uint64, Slice.index_eq b _ (show 0 < b.len by omega),
      Slice.index_eq b _ (show 1 < b.len by omega), Slice.index_eq b _ (show 2 < b.len by omega),
      Slice.index_eq b _ (show 3 < b.len by omega), Slice.index_eq b _ (show 4 < b.len by omega),
      Slice.index_eq b _ (show 5 < b.len by omega), Slice.index_eq b _ (show 6 < b.len by omega),
      Slice.index_eq b _ (show 7 < b.len by omega), hb]
    simp [lor8]

theorem bytes_PublicKeyFromBytes (b : Slice) (h : b.len = 32) :
    (PublicKeyFromBytes b).bytes = b.toList := by
  have hl := b.length_toList
  simp only [PublicKeyFromBytes]
  rw [List.take_of_length_le (by omega)]
  simp [hl, h]

theorem PublicKey.ext_bytes (a b : PublicKey) (h : a.bytes = b.bytes) : a = b := by
  cases a
  cases b
  cases h
  rfl

theorem PublicKeyFromBytes_ofList (t : Slice) :
    PublicKeyFromBytes t = PublicKeyFromBytes (Slice.ofList t.toList) := by
  apply PublicKey.ext_bytes
  simp only [PublicKeyFromBytes, Slice.toList_ofList]

/-! ## The client-entry decoder -/

/-- On an 84-byte blob the decoder returns the entry read at the fixed offsets. -/
theorem getClientEntryAfterFetch_value (b : Slice) (h : b.len = 84) :
    getClientEntryAfterFetch (some b) = .value
      ⟨PublicKeyFromBytes (Slice.ofList ((b.toList.drop 8).take 32)),
       PublicKeyFromBytes (Slice.ofList ((b.toList.drop 40).take 32)),
       toInt64 (leValue ((b.toList.drop 72).take 8)),
       leValue ((b.toList.drop 80).take 4)⟩ := by
  obtain ⟨d, hd, hdl, hdt⟩ := b.sliceFrom_some 8 (by omega)
  obtain ⟨p, hp, hpl, hpt⟩ := d.sliceTo_some 32 (by omega)
  obtain ⟨r, hr, hrl, hrt⟩ := d.slice_some 32 64 (by omega) (by omega)
  obtain ⟨u, hu, hul, hut⟩ := d.slice_some 64 72 (by omega) (by omega)
  obtain ⟨l, hl, hll, hlt⟩ := d.slice_some 72 76 (by omega) (by omega)
  have hU := Uint64_some u hul
  have hL := Uint32_some l hll
  simp only [getClientEntryAfterFetch, h, ClientEntrySize, hd, hp, hr, hu, hl, hU, hL,
    Option.bind_eq_bind, Option.some_bind, Option.pure_def]
  rw [if_neg (by decide), if_neg (by decide), PublicKeyFromBytes_ofList p,
    PublicKeyFromBytes_ofList r, hpt, hrt, hut, hlt, hdt]
  simp only [List.drop_drop]

/-! ## The node-entry decoder -/

/-- The declared domain length of a node-entry blob: the `uint32` at payload
bytes `[64:68]`, that is at blob bytes `[72:76]`. -/
theorem declaredLen_lt (b : Slice) : leValue ((b.toList.drop 72).take 4) < 2 ^ 32 := by
  have h := leValue_lt ((b.toList.drop 72).take 4)
  have h2 : ((b.toList.drop 72).take 4).length ≤ 4 := by
    rw [List.length_take]
    omega
  calc leValue ((b.toList.drop 72).take 4) < 256 ^ ((b.toList.drop 72).take 4).length := h
    _ ≤ 256 ^ 4 := Nat.pow_le_pow_right (by decide) h2
    _ = 2 ^ 32 := by norm_num

/-- On a blob of `NodeEntrySize` bytes the decoder returns the entry read at the
offsets the declared domain length gives when that length is at most 253, and
panics otherwise. -/
theorem getNodeEntryAfterFetch_sized (b : Slice) (h : b.len = 334) :
    getNodeEntryAfterFetch (some b) =
      if leValue ((b.toList.drop 72).take 4) ≤ 253 then
        .value
          ⟨PublicKeyFromBytes (Slice.ofList ((b.toList.drop 8).take 32)),
           PublicKeyFromBytes (Slice.ofList ((b.toList.drop 40).take 32)),
           (b.toList.drop 76).take (leValue ((b.toList.drop 72).take 4)),
           toInt32 (leValue
             ((b.toList.drop (76 + leValue ((b.toList.drop 72).take 4))).take 4)),
           b.toList[80 + leValue ((b.toList.drop 72).take 4)]? == some 1⟩
      else .panic := by
  have hLlt := declaredLen_lt b
  generalize hL : leValue ((b.toList.drop 72).take 4) = L at hLlt ⊢
  obtain ⟨d, hd, hdl, hdt⟩ := b.sliceFrom_some 8 (by omega)
  obtain ⟨p, hp, hpl, hpt⟩ := d.sliceTo_some 32 (by omega)
  obtain ⟨r, hr, hrl, hrt⟩ := d.slice_some 32 64 (by omega) (by omega)
  obtain ⟨n, hn, hnl, hnt⟩ := d.slice_some 64 68 (by omega) (by omega)
  have hN := Uint32_some n hnl
  rw [hnt, hdt, List.drop_drop] at hN
  norm_num at hN
  rw [hL] at hN
  simp only [getNodeEntryAfterFetch, h, NodeEntrySize, hd, hp, hr, hn, hN,
    Option.bind_eq_bind, Option.some_bind, Option.pure_def]
  rw [if_neg (by decide), if_neg (by decide)]
  by_cases hle : L ≤ 253
  · rw [if_pos hle]
    have ha : toUint32 (68 + L) = 68 + L := by unfold toUint32; omega
    have hc : toUint32 (72 + L) = 72 + L := by unfold toUint32; omega
    obtain ⟨m, hm, hml, hmt⟩ := d.slice_some 68 (68 + L) (by omega) (by omega)
    obtain ⟨o, ho, hol, hot⟩ := d.slice_some (68 + L) (72 + L) (by omega) (by omega)
    have hO := Uint32_some o (by omega)
    have hi := d.index_eq (72 + L) (by omega)
    have hlen : 72 + L < d.toList.length := by rw [d.length_toList]; omega
    obtain ⟨x, hx⟩ : ∃ x, d.toList[72 + L]? = some x :=
      ⟨_, List.getElem?_eq_getElem hlen⟩
    have hbx : b.toList[80 + L]? = some x := by
      rw [← hx, hdt, List.getElem?_drop]
      congr 1
      omega
    rw [ha, hc, hm, ho]
    simp only [Option.some_bind, hO, hi, hx, hbx]
    rw [PublicKeyFromBytes_ofList p, PublicKeyFromBytes_ofList r, hpt, hrt, hmt, hot, hdt]
    simp only [List.drop_drop]
    have e1 : 68 + L - 68 = L := by omega
    have e2 : 72 + L - (68 + L) = 4 := by omega
    have e3 : 8 + (68 + L) = 76 + L := by omega
    have e4 : (some x == some (1 : Byte)) = (x == 1) := by
      by_cases hx1 : x = 1 <;> simp [hx1]
    rw [e1, e2, e3, e4]
  · rw [if_neg hle]
    have hnone : ∀ (f : Slice → Slice → Nat → Byte → NodeEntry),
        ((d.slice 68 (toUint32 (68 + L))).bind fun domain =>
          (d.slice (toUint32 (68 + L)) (toUint32 (72 + L))).bind fun t =>
            (LittleEndian.Uint32 t).bind fun online =>
              (d.index (toUint32 (72 + L))).bind fun active =>
                some (f domain t online active)) = none := by
      intro f
      cases h1 : d.slice 68 (toUint32 (68 + L)) with
      | none => rfl
      | some dom =>
        cases h2 : d.slice (toUint32 (68 + L)) (toUint32 (72 + L)) with
        | none => rfl
        | some t =>
          have b1 := d.slice_isSome _ _ _ h1
          have b2 := d.slice_isSome _ _ _ h2
          have h3 : d.index (toUint32 (72 + L)) = none := by
            apply Slice.index_none
            unfold toUint32 at *
            omega
          simp only [Option.some_bind, h3, Option.none_bind]
          cases LittleEndian.Uint32 t <;> rfl
    rw [hnone (fun domain _ online active =>
      ⟨PublicKeyFromBytes p, PublicKeyFromBytes r, domain.toList, toInt32 online, active == 1⟩)]

theorem getClientEntryAfterFetch_unsized (b : Slice) (h0 : b.len ≠ 0) (h : b.len ≠ 84) :
    getClientEntryAfterFetch (some b) = .failure (.invalidAccountDataSize 84 b.len) := by
  simp only [getClientEntryAfterFetch, ClientEntrySize]
  rw [if_neg h0, if_pos h]

theorem getNodeEntryAfterFetch_unsized (b : Slice) (h0 : b.len ≠ 0) (h : b.len ≠ 334) :
    getNodeEntryAfterFetch (some b) = .failure (.invalidAccountDataSize 334 b.len) := by
  simp only [getNodeEntryAfterFetch, NodeEntrySize]
  rw [if_neg h0, if_pos h]

theorem getNodeEntryAfterFetch_empty (b : Slice) (h0 : b.len = 0) :
    getNodeEntryAfterFetch (some b) = .absent := by
  simp only [getNodeEntryAfterFetch]
  rw [if_pos h0]

theorem getClientEntryAfterFetch_empty (b : Slice) (h0 : b.len = 0) :
    getClientEntryAfterFetch (some b) = .absent := by
  simp only [getClientEntryAfterFetch]
  rw [if_pos h0]

/-- A node-entry blob is accepted only with `NodeEntrySize` bytes and a declared
domain length of at most 253. -/
theorem getNodeEntryAfterFetch_accepts (b : Slice) (e : NodeEntry)
    (h : getNodeEntryAfterFetch (some b) = .value e) :
    b.len = 334 ∧ leValue ((b.toList.drop 72).take 4) ≤ 253 := by
  by_cases h0 : b.len = 0
  · rw [getNodeEntryAfterFetch_empty b h0] at h
    cases h
  · by_cases hs : b.len = 334
    · refine ⟨hs, ?_⟩
      rw [getNodeEntryAfterFetch_sized b hs] at h
      by_contra hL
      rw [if_neg hL] at h
      cases h
    · rw [getNodeEntryAfterFetch_unsized b h0 hs] at h
      cases h

/-- On a blob of `NodeEntrySize` bytes whose declared domain length exceeds 253,
offsets wrapped in 32-bit arithmetic included, the decoder panics. -/
theorem getNodeEntryAfterFetch_overrun (b : Slice) (h : b.len = 334)
    (hL : 253 < leValue ((b.toList.drop 72).take 4)) :
    getNodeEntryAfterFetch (some b) = .panic := by
  rw [getNodeEntryAfterFetch_sized b h, if_neg (by omega)]

/-! ## Written records -/

theorem take_drop_mid (x m y : List Byte) (n k : Nat) (hx : x.length = n) (hm : m.length = k) :
    ((x ++ m ++ y).drop n).take k = m := by
  rw [List.append_assoc, List.drop_left' hx, List.take_left' hm]

theorem getElem?_after (x y : List Byte) (f : Byte) (n : Nat) (hx : x.length = n) :
    (x ++ f :: y)[n]? = some f := by
  have h := List.getElem?_drop (x ++ f :: y) n 0
  rw [List.drop_left' hx] at h
  simpa using h.symm

theorem PublicKeyFromBytes_bytes (k : PublicKey) :
    PublicKeyFromBytes (Slice.ofList k.bytes) = k := by
  apply PublicKey.ext_bytes
  rw [bytes_PublicKeyFromBytes _ (by simp [Slice.ofList, k.size]), Slice.toList_ofList]

theorem length_PutUint32 (v : Nat) : (LittleEndian.PutUint32 v).length = 4 := rfl

theorem length_PutUint64 (v : Nat) : (LittleEndian.PutUint64 v).length = 8 := rfl

/-- A client entry written by the codec's rules is read back unchanged. -/
theorem getClientEntryAfterFetch_write (disc : List Byte) (hd : disc.length = 8)
    (e : ClientEntry) (hlo : -(2 ^ 63) ≤ e.Until) (hhi : e.Until < 2 ^ 63)
    (hlimit : e.Limit < 2 ^ 32) (s : Slice) (hs : s.toList = writeClientEntry disc e) :
    getClientEntryAfterFetch (some s) = .value e := by
  have hP := e.Parent.size
  have hR := e.Registred.size
  have hlen : s.len = 84 := by
    rw [← s.length_toList, hs]
    simp only [writeClientEntry, List.length_append, hd, hP, hR, length_PutUint32,
      length_PutUint64]
  rw [getClientEntryAfterFetch_value s hlen, hs]
  have f1 : ((writeClientEntry disc e).drop 8).take 32 = e.Parent.bytes := by
    have := take_drop_mid disc e.Parent.bytes
      (e.Registred.bytes ++ LittleEndian.PutUint64 (int64ToUint64 e.Until) ++
        LittleEndian.PutUint32 e.Limit) 8 32 hd hP
    simpa only [writeClientEntry, List.append_assoc] using this
  have f2 : ((writeClientEntry disc e).drop 40).take 32 = e.Registred.bytes := by
    have := take_drop_mid (disc ++ e.Parent.bytes) e.Registred.bytes
      (LittleEndian.PutUint64 (int64ToUint64 e.Until) ++ LittleEndian.PutUint32 e.Limit)
      40 32 (by simp only [List.length_append, hd, hP]) hR
    simpa only [writeClientEntry, List.append_assoc] using this
  have f3 : ((writeClientEntry disc e).drop 72).take 8
      = LittleEndian.PutUint64 (int64ToUint64 e.Until) := by
    have := take_drop_mid (disc ++ e.Parent.bytes ++ e.Registred.bytes)
      (LittleEndian.PutUint64 (int64ToUint64 e.Until)) (LittleEndian.PutUint32 e.Limit)
      72 8 (by simp only [List.length_append, hd, hP, hR]) rfl
    simpa only [writeClientEntry, List.append_assoc] using this
  have f4 : ((writeClientEntry disc e).drop 80).take 4 = LittleEndian.PutUint32 e.Limit := by
    have := take_drop_mid (disc ++ e.Parent.bytes ++ e.Registred.bytes ++
        LittleEndian.PutUint64 (int64ToUint64 e.Until))
      (LittleEndian.PutUint32 e.Limit) [] 80 4
      (by simp only [List.length_append, hd, hP, hR, length_PutUint64]) rfl
    simpa only [writeClientEntry, List.append_assoc, List.append_nil] using this
  rw [f1, f2, f3, f4, PublicKeyFromBytes_bytes, PublicKeyFromBytes_bytes, leValue_PutUint64,
    leValue_PutUint32, Nat.mod_eq_of_lt hlimit]
  have hU : toInt64 (int64ToUint64 e.Until % 2 ^ 64) = e.Until := by
    have h := toInt64_int64ToUint64 e.Until hlo hhi
    unfold toInt64 at h ⊢
    simp only [Nat.mod_mod] at h ⊢
    exact h
  rw [hU]

/-- A node entry written by the codec's rules and padded to `NodeEntrySize`
bytes is read back unchanged. -/
theorem getNodeEntryAfterFetch_write (disc : List Byte) (hd : disc.length = 8)
    (e : NodeEntry) (pad : List Byte) (hdom : e.Domain.length ≤ 253)
    (hlo : -(2 ^ 31) ≤ e.Online) (hhi : e.Online < 2 ^ 31)
    (hpad : pad.length = 253 - e.Domain.length)
    (s : Slice) (hs : s.toList = writeNodeEntry disc e ++ pad) :
    getNodeEntryAfterFetch (some s) = .value e := by
  have hP := e.Parent.size
  have hR := e.Registred.size
  have hlen : s.len = 334 := by
    rw [← s.length_toList, hs]
    simp only [writeNodeEntry, List.length_append, hd, hP, hR, length_PutUint32,
      List.length_cons, List.length_nil]
    omega
  have f0 : ((writeNodeEntry disc e ++ pad).drop 72).take 4
      = LittleEndian.PutUint32 e.Domain.length := by
    have := take_drop_mid (disc ++ e.Parent.bytes ++ e.Registred.bytes)
      (LittleEndian.PutUint32 e.Domain.length)
      (e.Domain ++ LittleEndian.PutUint32 (int32ToUint32 e.Online) ++
        [if e.Active then 1 else 0] ++ pad)
      72 4 (by simp only [List.length_append, hd, hP, hR]) rfl
    simpa only [writeNodeEntry, List.append_assoc] using this
  have hL : leValue (((writeNodeEntry disc e ++ pad).drop 72).take 4) = e.Domain.length := by
    rw [f0, leValue_PutUint32]
    exact Nat.mod_eq_of_lt (by omega)
  rw [getNodeEntryAfterFetch_sized s hlen, hs, hL, if_pos hdom]
  have f1 : ((writeNodeEntry disc e ++ pad).drop 8).take 32 = e.Parent.bytes := by
    have := take_drop_mid disc e.Parent.bytes
      (e.Registred.bytes ++ LittleEndian.PutUint32 e.Domain.length ++ e.Domain ++
        LittleEndian.PutUint32 (int32ToUint32 e.Online) ++ [if e.Active then 1 else 0] ++ pad)
      8 32 hd hP
    simpa only [writeNodeEntry, List.append_assoc] using this
  have f2 : ((writeNodeEntry disc e ++ pad).drop 40).take 32 = e.Registred.bytes := by
    have := take_drop_mid (disc ++ e.Parent.bytes) e.Registred.bytes
      (LittleEndian.PutUint32 e.Domain.length ++ e.Domain ++
        LittleEndian.PutUint32 (int32ToUint32 e.Online) ++ [if e.Active then 1 else 0] ++ pad)
      40 32 (by simp only [List.length_append, hd, hP]) hR
    simpa only [writeNodeEntry, List.append_assoc] using this
  have f3 : ((writeNodeEntry disc e ++ pad).drop 76).take e.Domain.length = e.Domain := by
    have := take_drop_mid (disc ++ e.Parent.bytes ++ e.Registred.bytes ++
        LittleEndian.PutUint32 e.Domain.length) e.Domain
      (LittleEndian.PutUint32 (int32ToUint32 e.Online) ++ [if e.Active then 1 else 0] ++ pad)
      76 e.Domain.length
      (by simp only [List.length_append, hd, hP, hR, length_PutUint32]) rfl
    simpa only [writeNodeEntry, List.append_assoc] using this
  have f4 : ((writeNodeEntry disc e ++ pad).drop (76 + e.Domain.length)).take 4
      = LittleEndian.PutUint32 (int32ToUint32 e.Online) := by
    have := take_drop_mid (disc ++ e.Parent.bytes ++ e.Registred.bytes ++
        LittleEndian.PutUint32 e.Domain.length ++ e.Domain)
      (LittleEndian.PutUint32 (int32ToUint32 e.Online))
      ([if e.Active then 1 else 0] ++ pad)
      (76 + e.Domain.length) 4
      (by simp only [List.length_append, hd, hP, hR, length_PutUint32]) rfl
    simpa only [writeNodeEntry, List.append_assoc] using this
  have f5 : (writeNodeEntry disc e ++ pad)[80 + e.Domain.length]?
      = some (if e.Active then 1 else 0) := by
    have := getElem?_after (disc ++ e.Parent.bytes ++ e.Registred.bytes ++
        LittleEndian.PutUint32 e.Domain.length ++ e.Domain ++
        LittleEndian.PutUint32 (int32ToUint32 e.Online)) pad
      (if e.Active then 1 else 0) (80 + e.Domain.length)
      (by simp only [List.length_append, hd, hP, hR, length_PutUint32]; omega)
    simpa only [writeNodeEntry, List.append_assoc, List.singleton_append] using this
  rw [f1, f2, f3, f4, f5, PublicKeyFromBytes_bytes, PublicKeyFromBytes_bytes,
    leValue_PutUint32]
  have hO : toInt32 (int32ToUint32 e.Online % 2 ^ 32) = e.Online := by
    have h := toInt32_int32ToUint32 e.Online hlo hhi
    unfold toInt32 at h ⊢
    simp only [Nat.mod_mod] at h ⊢
    exact h
  have hA : (some (if e.Active then (1 : Byte) else 0) == some 1) = e.Active := by
    cases e.Active <;> decide
  rw [hO, hA]

/-! ## The list loops -/

/-- The struct literal of the client loop is the one of `getClientEntry`. -/
theorem getClientEntryAfterFetch_listClientsEntry (b : Slice) (h : b.len = 84) :
    getClientEntryAfterFetch (some b) =
      match listClientsEntry b with
      | some e => .value e
      | none => .panic := by
  simp only [getClientEntryAfterFetch, listClientsEntry, h, ClientEntrySize]
  rw [if_neg (by decide), if_neg (by decide)]

/-- The struct literal of the node loop is the one of `getNodeEntry`. -/
theorem getNodeEntryAfterFetch_listNodesEntry (b : Slice) (h : b.len = 334) :
    getNodeEntryAfterFetch (some b) =
      match listNodesEntry b with
      | some e => .value e
      | none => .panic := by
  simp only [getNodeEntryAfterFetch, listNodesEntry, h, NodeEntrySize]
  rw [if_neg (by decide), if_neg (by decide)]

theorem listClientsEntry_some (b : Slice) (h : b.len = 84) :
    ∃ e, listClientsEntry b = some e ∧ getClientEntryAfterFetch (some b) = .value e := by
  have h1 := getClientEntryAfterFetch_listClientsEntry b h
  have h2 := getClientEntryAfterFetch_value b h
  cases hE : listClientsEntry b with
  | none =>
    rw [hE, h2] at h1
    cases h1
  | some e =>
    rw [hE] at h1
    exact ⟨e, rfl, h1⟩

/-- The client loop returns the entries of the 84-byte accounts, in order. -/
theorem listClientsLoop_entries (accounts : List (PublicKey × Slice)) :
    ∀ acc : List ClientEntry, ∃ es : List ClientEntry,
      listClientsLoop accounts acc = .entries (acc ++ es) ∧
      es.map Outcome.value =
        (accounts.filter fun a => decide (a.2.len = 84)).map
          (fun a => getClientEntryAfterFetch (some a.2)) ∧
      es.length ≤ accounts.length := by
  induction accounts with
  | nil =>
    intro acc
    exact ⟨[], by simp [listClientsLoop], by simp, by simp⟩
  | cons a rest ih =>
    intro acc
    by_cases hlen : a.2.len = 84
    · obtain ⟨e, he, hv⟩ := listClientsEntry_some a.2 hlen
      obtain ⟨es, h1, h2, h3⟩ := ih (acc ++ [e])
      refine ⟨e :: es, ?_, ?_, ?_⟩
      · simp only [listClientsLoop, ClientEntrySize, hlen, he]
        rw [if_neg (by decide), h1, List.append_assoc]
        rfl
      · simp only [List.map_cons, List.filter_cons, hlen, decide_True, if_true, hv, h2]
      · simp only [List.length_cons]
        omega
    · obtain ⟨es, h1, h2, h3⟩ := ih acc
      refine ⟨es, ?_, ?_, ?_⟩
      · simp only [listClientsLoop, ClientEntrySize]
        rw [if_pos hlen, h1]
      · simp only [List.filter_cons, hlen, decide_False, h2]
        rfl
      · simp only [List.length_cons]
        omega

/-- Every entry the node loop returns was appended before or is the struct
literal of a scanned account of `NodeEntrySize` bytes. -/
theorem listNodesLoop_mem (accounts : List (PublicKey × Slice)) :
    ∀ (acc es : List NodeEntry), listNodesLoop accounts acc = .entries es →
      ∀ e ∈ es, e ∈ acc ∨ ∃ a ∈ accounts, a.2.len = 334 ∧ listNodesEntry a.2 = some e := by
  induction accounts with
  | nil =>
    intro acc es h e he
    simp only [listNodesLoop] at h
    cases h
    exact Or.inl he
  | cons a rest ih =>
    intro acc es h e he
    by_cases hlen : a.2.len = 334
    · simp only [listNodesLoop, NodeEntrySize, hlen] at h
      rw [if_neg (by decide)] at h
      cases hE : listNodesEntry a.2 with
      | none =>
        rw [hE] at h
        cases h
      | some e1 =>
        rw [hE] at h
        rcases ih _ _ h e he with hmem | ⟨a2, ha2, hl2, hd2⟩
        · rcases List.mem_append.mp hmem with hacc | hlast
          · exact Or.inl hacc
          · have : e = e1 := by simpa using hlast
            subst this
            exact Or.inr ⟨a, List.mem_cons_self _ _, hlen, hE⟩
        · exact Or.inr ⟨a2, List.mem_cons_of_mem _ ha2, hl2, hd2⟩
    · simp only [listNodesLoop, NodeEntrySize] at h
      rw [if_pos hlen] at h
      rcases ih _ _ h e he with hmem | ⟨a2, ha2, hl2, hd2⟩
      · exact Or.inl hmem
      · exact Or.inr ⟨a2, List.mem_cons_of_mem _ ha2, hl2, hd2⟩

/-- The node loop panics on an account of `NodeEntrySize` bytes that declares a
domain of more than 253 bytes, whatever precedes it. -/
theorem listNodesLoop_overrun (before after : List (PublicKey × Slice)) (a : PublicKey × Slice)
    (hlen : a.2.len = 334) (hL : 253 < leValue ((a.2.toList.drop 72).take 4)) :
    ∀ acc : List NodeEntry, listNodesLoop (before ++ a :: after) acc = .panic := by
  induction before with
  | nil =>
    intro acc
    have h1 := getNodeEntryAfterFetch_listNodesEntry a.2 hlen
    rw [getNodeEntryAfterFetch_overrun a.2 hlen hL] at h1
    simp only [List.nil_append, listNodesLoop, NodeEntrySize, hlen]
    rw [if_neg (by decide)]
    cases hE : listNodesEntry a.2 with
    | none => rfl
    | some e =>
      rw [hE] at h1
      cases h1
  | cons x rest ih =>
    intro acc
    by_cases hx : x.2.len = 334
    · simp only [List.cons_append, listNodesLoop, NodeEntrySize, hx]
      rw [if_neg (by decide)]
      cases hE : listNodesEntry x.2 with
      | none => rfl
      | some e => exact ih _
    · simp only [List.cons_append, listNodesLoop, NodeEntrySize]
      rw [if_pos hx]
      exact ih _

/-! ## The write methods -/

/-- The block that sends an instruction fails only with one of its own four
errors. -/
theorem sendInstruction_error (c : RegistryClient) (ins : Instruction) (e : ClientError)
    (h : (c.sendInstruction ins).result = .error e) :
    e = .getRecentBlockhash ∨ e = .createTransaction ∨ e = .signTransaction ∨
      e = .sendAndConfirmTransaction := by
  unfold RegistryClient.sendInstruction at h
  split at h
  · simp only [Except.error.injEq] at h
    exact Or.inl h.symm
  · split at h
    · simp only [Except.error.injEq] at h
      exact Or.inr (Or.inl h.symm)
    · split at h
      · simp only [Except.error.injEq] at h
        exact Or.inr (Or.inr (Or.inl h.symm))
      · split at h
        · simp only [Except.error.injEq] at h
          exact Or.inr (Or.inr (Or.inr h.symm))
        · cases h

/-- The first call of the block that sends an instruction is the block hash
fetch. -/
theorem sendInstruction_calls (c : RegistryClient) (ins : Instruction) :
    ∃ rest, (c.sendInstruction ins).calls = .GetLatestBlockhash :: rest := by
  unfold RegistryClient.sendInstruction
  split
  · exact ⟨_, rfl⟩
  · split
    · exact ⟨_, rfl⟩
    · split
      · exact ⟨_, rfl⟩
      · split <;> exact ⟨_, rfl⟩

/-! ## Scan filters -/

theorem parent_of_selects (l : List Byte) (k : PublicKey)
    (h : (RPCFilter.Memcmp 8 k.bytes).selects l) :
    PublicKeyFromBytes (Slice.ofList ((l.drop 8).take 32)) = k := by
  simp only [RPCFilter.selects, subBytes, k.size] at h
  have h2 : (l.drop 8).take 32 = k.bytes := h
  rw [h2, PublicKeyFromBytes_bytes]

theorem len_of_selects (b : Slice) (n : Nat) (h : (RPCFilter.DataSize n).selects b.toList) :
    b.len = n := by
  simp only [RPCFilter.selects] at h
  rw [← b.length_toList, h]

theorem listClientsEntry_parent (b : Slice) (h : b.len = 84) (e : ClientEntry)
    (he : getClientEntryAfterFetch (some b) = .value e) :
    e.Parent = PublicKeyFromBytes (Slice.ofList ((b.toList.drop 8).take 32)) := by
  rw [getClientEntryAfterFetch_value b h] at he
  have := Outcome.value.inj he
  rw [← this]

theorem listNodesEntry_parent (b : Slice) (h : b.len = 334) (e : NodeEntry)
    (he : listNodesEntry b = some e) :
    e.Parent = PublicKeyFromBytes (Slice.ofList ((b.toList.drop 8).take 32)) := by
  have h1 := getNodeEntryAfterFetch_listNodesEntry b h
  rw [he, getNodeEntryAfterFetch_sized b h] at h1
  split at h1
  · have := Outcome.value.inj h1
    rw [← this]
  · cases h1

/-! ## Discriminators -/

/-- Every builder writes its discriminator first. -/
theorem Builds.take_discriminator (sol : Solana) (b : Builder) (ins : Instruction)
    (h : Builds sol b ins) : ins.data.take 8 = b.discriminator := by
  cases h with
  | InitRegistry programID authority name ins2 registryPDA h =>
    simp only [buildInitRegistryInstruction] at h
    split at h
    · cases h
    · cases h
      rfl
  | AddClientToRegistry programID authority registry accountToAdd validUntilUnix limit ins2 h =>
    simp only [buildAddClientToRegistryInstruction] at h
    split at h
    · cases h
    · cases h
      rfl
  | AddNodeToRegistry programID authority registry accountToAdd domain ins2 h =>
    simp only [buildAddNodeToRegistryInstruction] at h
    split at h
    · cases h
    · cases h
      rfl
  | RemoveClientFromRegistry programID authority registry accountToDelete ins2 h =>
    simp only [buildRemoveClientFromRegistryInstruction] at h
    split at h
    · cases h
    · cases h
      rfl
  | RemoveNodeFromRegistry programID authority registry accountToDelete ins2 h =>
    simp only [buildRemoveNodeFromRegistryInstruction] at h
    split at h
    · cases h
    · cases h
      rfl
  | UpdateNodeOnline programID authority registry accountToUpdate value ins2 h =>
    simp only [buildUpdateNodeOnlineInstruction] at h
    split at h
    · cases h
    · cases h
      rfl
  | UpdateNodeActive programID accountToUpdate registry authority active ins2 h =>
    simp only [buildUpdateNodeActiveInstruction] at h
    split at h
    · cases h
    · split at h
      · cases h
      · cases h
        cases active <;> rfl

/-- Different builders have different discriminators. -/
theorem Builder.discriminator_injective (a b : Builder)
    (h : a.discriminator = b.discriminator) : a = b := by
  cases a <;> cases b <;> first | rfl | (exact absurd h (by decide))

/-! ## Signing -/

theorem signerGetter_some (c : RegistryClient) (key : PublicKey) (k : PrivateKey) :
    c.signerGetter key = some k ↔ key = c.signer.PublicKey ∧ k = c.signer := by
  unfold RegistryClient.signerGetter
  by_cases h : key = c.signer.PublicKey
  · rw [if_pos h]
    constructor
    · intro hk
      exact ⟨h, (Option.some.inj hk).symm⟩
    · intro hk
      rw [hk.2]
  · rw [if_neg h]
    constructor
    · intro hk
      cases hk
    · intro hk
      exact absurd hk.1 h

theorem signerGetter_none (c : RegistryClient) (key : PublicKey)
    (h : key ≠ c.signer.PublicKey) : c.signerGetter key = none := by
  unfold RegistryClient.signerGetter
  rw [if_neg h]

/-- The block that sends an instruction, on an instruction that marks as signer
an account other than the held key: it never returns a signature, never
submits, and returns the signing error whenever it reaches the signing step. -/
theorem sendInstruction_missing_signer (c : RegistryClient) (hlib : c.client.SignsAsSpecified)
    (ins : Instruction) (m : AccountMeta) (hm : m ∈ ins.accounts) (hs : m.IsSigner = true)
    (hne : m.pubkey ≠ c.signer.PublicKey) :
    (∀ sig, (c.sendInstruction ins).result ≠ .ok sig) ∧
    (∀ tx, Call.SendAndConfirmTransaction tx ∉ (c.sendInstruction ins).calls) ∧
    (∀ tx, Call.Sign tx ∈ (c.sendInstruction ins).calls →
      (c.sendInstruction ins).result = .error .signTransaction) ∧
    (∀ recent tx, c.client.GetLatestBlockhash = .ok recent →
      c.client.NewTransaction [ins] recent c.signer.PublicKey = .ok tx →
      (c.sendInstruction ins).result = .error .signTransaction) := by
  cases hb : c.client.GetLatestBlockhash with
  | error e =>
    simp only [RegistryClient.sendInstruction, hb]
    refine ⟨?_, ?_, ?_, ?_⟩
    · intro sig h
      cases h
    · intro tx h
      simp at h
    · intro tx h
      simp at h
    · intro recent tx h
      cases h
  | ok recent =>
    cases hn : c.client.NewTransaction [ins] recent c.signer.PublicKey with
    | error e =>
      simp only [RegistryClient.sendInstruction, hb, hn]
      refine ⟨?_, ?_, ?_, ?_⟩
      · intro sig h
        cases h
      · intro tx h
        simp at h
      · intro tx h
        simp at h
      · intro recent2 tx h1 h2
        cases h1
        rw [hn] at h2
        cases h2
    | ok tx =>
      have htx := (hlib.newTransaction [ins] recent c.signer.PublicKey tx hn).1
      have hsign : c.client.Sign tx c.signerGetter = .error () :=
        hlib.sign tx c.signerGetter ins m (by rw [htx]; exact List.mem_singleton_self ins) hm hs
          (signerGetter_none c m.pubkey hne)
      simp only [RegistryClient.sendInstruction, hb, hn, hsign]
      refine ⟨?_, ?_, ?_, ?_⟩
      · intro sig h
        cases h
      · intro tx2 h
        simp at h
      · intro tx2 _
        trivial
      · intro recent2 tx2 _ _
        trivial

theorem sendInstruction_newTransaction (c : RegistryClient) (ins : Instruction)
    (l : List Instruction) (p : PublicKey)
    (h : Call.NewTransaction l p ∈ (c.sendInstruction ins).calls) : l = [ins] := by
  unfold RegistryClient.sendInstruction at h
  split at h
  · simp at h
  · split at h
    · simp at h
      exact h.1
    · split at h
      · simp at h
        exact h.1
      · split at h <;>
        · simp at h
          exact h.1

theorem sendNilInstruction_newTransaction (c : RegistryClient) (deps : DelegateNodeDeps)
    (l : List Instruction) (p : PublicKey) :
    Call.NewTransaction l p ∉ (c.sendNilInstruction deps).calls := by
  unfold RegistryClient.sendNilInstruction
  split
  · simp
  · split
    · simp
    · split
      · simp
      · split <;> simp

theorem sendNilInstruction_calls (c : RegistryClient) (deps : DelegateNodeDeps) :
    ∃ rest, (c.sendNilInstruction deps).calls = .GetLatestBlockhash :: rest := by
  unfold RegistryClient.sendNilInstruction
  split
  · exact ⟨_, rfl⟩
  · split
    · exact ⟨_, rfl⟩
    · split
      · exact ⟨_, rfl⟩
      · split <;> exact ⟨_, rfl⟩

theorem sendNilInstruction_error (c : RegistryClient) (deps : DelegateNodeDeps) (e : ClientError)
    (h : (c.sendNilInstruction deps).result = .error e) :
    e = .getRecentBlockhash ∨ e = .createTransaction ∨ e = .signTransaction ∨
      e = .sendAndConfirmTransaction := by
  unfold RegistryClient.sendNilInstruction at h
  split at h
  · simp only [Except.error.injEq] at h
    exact Or.inl h.symm
  · split at h
    · simp only [Except.error.injEq] at h
      exact Or.inr (Or.inl h.symm)
    · split at h
      · simp only [Except.error.injEq] at h
        exact Or.inr (Or.inr (Or.inl h.symm))
      · split at h
        · simp only [Except.error.injEq] at h
          exact Or.inr (Or.inr (Or.inr h.symm))
        · cases h

theorem sampleSigningTransport_signsAsSpecified : sampleSigningTransport.SignsAsSpecified := by
  constructor
  · intro instructions recent payer tx h
    simp only [sampleSigningTransport, Except.ok.injEq] at h
    rw [← h]
    exact ⟨rfl, rfl⟩
  · intro tx getter ins m hins hm hs hg
    simp only [sampleSigningTransport]
    rw [if_neg]
    intro hall
    have h1 := List.all_eq_true.mp hall ins hins
    have h2 := List.all_eq_true.mp h1 m hm
    simp [hs, hg] at h2

/-- Every execution of a write method either is the block that sends the built
instruction, run after calls of `findRegistryPDA` and builders only, or hands
no instruction to `NewTransaction`. -/
theorem write_shape (sol : Solana) (deps : DelegateNodeDeps) (c : RegistryClient)
    (op : WriteOp) :
    (∃ (pre : List Call) (ins : Instruction), (∀ x ∈ pre, x.isLocal = true) ∧
      c.write sol deps op = (c.sendInstruction ins).after pre) ∨
    (∀ l p, Call.NewTransaction l p ∉ (c.write sol deps op).calls) := by
  cases op with
  | CreateRegistry name =>
    simp only [RegistryClient.write, RegistryClient.CreateRegistry]
    split
    · right
      intro l p h
      simp at h
    · left
      exact ⟨_, _, by simp [Call.isLocal], rfl⟩
  | AddClientToRegistry registryName accountToAdd validUntilUnix limit =>
    simp only [RegistryClient.write, RegistryClient.AddClientToRegistry]
    split
    · right
      intro l p h
      simp at h
    · split
      · right
        intro l p h
        simp at h
      · left
        exact ⟨_, _, by simp [Call.isLocal], rfl⟩
  | AddNodeToRegistry registryName accountToAdd domain =>
    simp only [RegistryClient.write, RegistryClient.AddNodeToRegistry]
    split
    · right
      intro l p h
      simp at h
    · split
      · right
        intro l p h
        simp at h
      · split
        · right
          intro l p h
          simp at h
        · left
          exact ⟨_, _, by simp [Call.isLocal], rfl⟩
  | DelegateNode registryName account =>
    simp only [RegistryClient.write, RegistryClient.DelegateNode]
    split
    · right
      intro l p h
      simp at h
    · split
      · right
        intro l p h
        simp only [Run.after, List.mem_append, List.mem_cons, List.mem_singleton,
          reduceCtorEq, List.not_mem_nil, or_self, false_or] at h
        exact sendNilInstruction_newTransaction c deps l p h
      · left
        exact ⟨_, _, by simp [Call.isLocal], rfl⟩
  | DeleteClientFromRegistry registryName accountToDelete =>
    simp only [RegistryClient.write, RegistryClient.DeleteClientFromRegistry]
    split
    · right
      intro l p h
      simp at h
    · split
      · right
        intro l p h
        simp at h
      · left
        exact ⟨_, _, by simp [Call.isLocal], rfl⟩
  | DeleteNodeFromRegistry registryName accountToDelete =>
    simp only [RegistryClient.write, RegistryClient.DeleteNodeFromRegistry]
    split
    · right
      intro l p h
      simp at h
    · split
      · right
        intro l p h
        simp at h
      · left
        exact ⟨_, _, by simp [Call.isLocal], rfl⟩
  | UpdateNodeOnline registryName authority accountToUpdate value =>
    simp only [RegistryClient.write, RegistryClient.UpdateNodeOnline]
    split
    · right
      intro l p h
      simp at h
    · split
      · right
        intro l p h
        simp at h
      · split
        · right
          intro l p h
          simp at h
        · left
          exact ⟨_, _, by simp [Call.isLocal], rfl⟩
  | UpdateNodeActive registryName authority accountToUpdate active =>
    simp only [RegistryClient.write, RegistryClient.UpdateNodeActive]
    split
    · right
      intro l p h
      simp at h
    · split
      · right
        intro l p h
        simp at h
      · left
        exact ⟨_, _, by simp [Call.isLocal], rfl⟩

theorem buildUpdateNodeOnline_accounts (sol : Solana)
    (programID authority registry accountToUpdate : PublicKey) (value : Int)
    (ins : Instruction)
    (h : buildUpdateNodeOnlineInstruction sol programID authority registry accountToUpdate
      value = .ok ins) :
    ∃ entryPDA bump,
      findRegistryEntryPDA sol programID accountToUpdate registry = some (entryPDA, bump) ∧
      ins.accounts =
        [⟨entryPDA, true, false⟩, ⟨registry, false, false⟩, ⟨authority, true, true⟩] := by
  simp only [buildUpdateNodeOnlineInstruction] at h
  split at h
  · cases h
  · rename_i entryPDA bump hpda
    cases h
    exact ⟨entryPDA, bump, hpda, rfl⟩

/-- With an account to update other than the held key, `UpdateNodeOnline` sends
an instruction that marks a foreign account as signer, whenever it sends one. -/
theorem UpdateNodeOnline_shape (sol : Solana) (c : RegistryClient)
    (registryName : List Byte) (authority accountToUpdate : PublicKey) (value : Int) :
    (∃ e, c.UpdateNodeOnline sol registryName authority accountToUpdate value =
        ⟨.error e, []⟩ ∨
      c.UpdateNodeOnline sol registryName authority accountToUpdate value =
        ⟨.error e, [.findRegistryPDA c.programID authority registryName]⟩ ∨
      c.UpdateNodeOnline sol registryName authority accountToUpdate value =
        ⟨.error e, [.findRegistryPDA c.programID authority registryName,
          .buildInstruction .UpdateNodeOnline]⟩) ∨
    (∃ ins registryPDA bump, 0 ≤ value ∧
      findRegistryPDA sol c.programID authority registryName = some (registryPDA, bump) ∧
      buildUpdateNodeOnlineInstruction sol c.programID accountToUpdate registryPDA
        accountToUpdate value = .ok ins ∧
      c.UpdateNodeOnline sol registryName authority accountToUpdate value =
        (c.sendInstruction ins).after
          [.findRegistryPDA c.programID authority registryName,
           .buildInstruction .UpdateNodeOnline]) := by
  by_cases hv : value < 0
  · left
    exact ⟨.negativeOnlineValue, Or.inl (by
      simp only [RegistryClient.UpdateNodeOnline, hv, if_true])⟩
  · cases hreg : findRegistryPDA sol c.programID authority registryName with
    | none =>
      left
      exact ⟨.findRegistryPDA, Or.inr (Or.inl (by
        simp only [RegistryClient.UpdateNodeOnline, hv, if_false, hreg]))⟩
    | some pda =>
      obtain ⟨registryPDA, bump⟩ := pda
      cases hb : buildUpdateNodeOnlineInstruction sol c.programID accountToUpdate registryPDA
          accountToUpdate value with
      | error e =>
        left
        exact ⟨.buildInstruction e, Or.inr (Or.inr (by
          simp only [RegistryClient.UpdateNodeOnline, hv, if_false, hreg, hb]))⟩
      | ok ins =>
        right
        refine ⟨ins, registryPDA, bump, by omega, rfl, hb, ?_⟩
        simp only [RegistryClient.UpdateNodeOnline, hv, if_false, hreg, hb]

/-! ## Failures before the transaction -/

/-- The seven write methods other than `DelegateNode` return a failed registry
derivation or a failed build to the caller, having called nothing else. -/
theorem write_methods_return_failure (sol : Solana) (c : RegistryClient)
    (registryName : List Byte) (account authority : PublicKey) :
    (∀ name e, buildInitRegistryInstruction sol c.programID c.signer.PublicKey name = .error e →
      c.CreateRegistry sol name =
        ⟨.error (.buildInstruction e), [.buildInstruction .InitRegistry]⟩) ∧
    (findRegistryPDA sol c.programID c.signer.PublicKey registryName = none →
      (∀ validUntilUnix limit,
        c.AddClientToRegistry sol registryName account validUntilUnix limit =
          ⟨.error .findRegistryPDA,
            [.findRegistryPDA c.programID c.signer.PublicKey registryName]⟩) ∧
      (∀ domain, domain.length ≤ 253 →
        c.AddNodeToRegistry sol registryName account domain =
          ⟨.error .findRegistryPDA,
            [.findRegistryPDA c.programID c.signer.PublicKey registryName]⟩) ∧
      c.DeleteClientFromRegistry sol registryName account =
        ⟨.error .findRegistryPDA,
          [.findRegistryPDA c.programID c.signer.PublicKey registryName]⟩ ∧
      c.DeleteNodeFromRegistry sol registryName account =
        ⟨.error .findRegistryPDA,
          [.findRegistryPDA c.programID c.signer.PublicKey registryName]⟩) ∧
    (findRegistryPDA sol c.programID authority registryName = none →
      (∀ value, 0 ≤ value →
        c.UpdateNodeOnline sol registryName authority account value =
          ⟨.error .findRegistryPDA, [.findRegistryPDA c.programID authority registryName]⟩) ∧
      (∀ active,
        c.UpdateNodeActive sol registryName authority account active =
          ⟨.error .findRegistryPDA, [.findRegistryPDA c.programID authority registryName]⟩)) ∧
    (∀ registryPDA bump,
      findRegistryPDA sol c.programID c.signer.PublicKey registryName
        = some (registryPDA, bump) →
      (∀ validUntilUnix limit e,
        buildAddClientToRegistryInstruction sol c.programID c.signer.PublicKey registryPDA
          account validUntilUnix limit = .error e →
        c.AddClientToRegistry sol registryName account validUntilUnix limit =
          ⟨.error (.buildInstruction e),
            [.findRegistryPDA c.programID c.signer.PublicKey registryName,
             .buildInstruction .AddClientToRegistry]⟩) ∧
      (∀ domain e, domain.length ≤ 253 →
        buildAddNodeToRegistryInstruction sol c.programID c.signer.PublicKey registryPDA
          account domain = .error e →
        c.AddNodeToRegistry sol registryName account domain =
          ⟨.error (.buildInstruction e),
            [.findRegistryPDA c.programID c.signer.PublicKey registryName,
             .buildInstruction .AddNodeToRegistry]⟩) ∧
      (∀ e,
        buildRemoveClientFromRegistryInstruction sol c.programID c.signer.PublicKey registryPDA
          account = .error e →
        c.DeleteClientFromRegistry sol registryName account =
          ⟨.error (.buildInstruction e),
            [.findRegistryPDA c.programID c.signer.PublicKey registryName,
             .buildInstruction .RemoveClientFromRegistry]⟩) ∧
      (∀ e,
        buildRemoveNodeFromRegistryInstruction sol c.programID c.signer.PublicKey registryPDA
          account = .error e →
        c.DeleteNodeFromRegistry sol registryName account =
          ⟨.error (.buildInstruction e),
            [.findRegistryPDA c.programID c.signer.PublicKey registryName,
             .buildInstruction .RemoveNodeFromRegistry]⟩)) ∧
    (∀ registryPDA bump,
      findRegistryPDA sol c.programID authority registryName = some (registryPDA, bump) →
      (∀ value e, 0 ≤ value →
        buildUpdateNodeOnlineInstruction sol c.programID account registryPDA account value
          = .error e →
        c.UpdateNodeOnline sol registryName authority account value =
          ⟨.error (.buildInstruction e),
            [.findRegistryPDA c.programID authority registryName,
             .buildInstruction .UpdateNodeOnline]⟩) ∧
      (∀ active e,
        buildUpdateNodeActiveInstruction sol c.programID account registryPDA
          c.signer.PublicKey active = .error e →
        c.UpdateNodeActive sol registryName authority account active =
          ⟨.error (.buildInstruction e),
            [.findRegistryPDA c.programID authority registryName,
             .buildInstruction .UpdateNodeActive]⟩)) := by
  refine ⟨?_, ?_, ?_, ?_, ?_⟩
  · intro name e h
    simp only [RegistryClient.CreateRegistry, h]
  · intro h
    refine ⟨?_, ?_, ?_, ?_⟩
    · intro validUntilUnix limit
      simp only [RegistryClient.AddClientToRegistry, h]
    · intro domain hd
      have hgt : ¬ domain.length > 253 := by omega
      simp only [RegistryClient.AddNodeToRegistry, hgt, if_false, h]
    · simp only [RegistryClient.DeleteClientFromRegistry, h]
    · simp only [RegistryClient.DeleteNodeFromRegistry, h]
  · intro h
    refine ⟨?_, ?_⟩
    · intro value hv
      have hneg : ¬ value < 0 := by omega
      simp only [RegistryClient.UpdateNodeOnline, hneg, if_false, h]
    · intro active
      simp only [RegistryClient.UpdateNodeActive, h]
  · intro registryPDA bump h
    refine ⟨?_, ?_, ?_, ?_⟩
    · intro validUntilUnix limit e hb
      simp only [RegistryClient.AddClientToRegistry, h, hb]
    · intro domain e hd hb
      have hgt : ¬ domain.length > 253 := by omega
      simp only [RegistryClient.AddNodeToRegistry, hgt, if_false, h, hb]
    · intro e hb
      simp only [RegistryClient.DeleteClientFromRegistry, h, hb]
    · intro e hb
      simp only [RegistryClient.DeleteNodeFromRegistry, h, hb]
  · intro registryPDA bump h
    refine ⟨?_, ?_⟩
    · intro value e hv hb
      have hneg : ¬ value < 0 := by omega
      simp only [RegistryClient.UpdateNodeOnline, hneg, if_false, h, hb]
    · intro active e hb
      simp only [RegistryClient.UpdateNodeActive, h, hb]

/-- When its builder fails, `DelegateNode` goes on to the block hash fetch and
never returns the builder's failure. -/
theorem DelegateNode_build_failure (sol : Solana) (deps : DelegateNodeDeps)
    (c : RegistryClient) (registryName : List Byte) (account registryPDA : PublicKey)
    (bump : Byte) (e : Error)
    (hreg : findRegistryPDA sol c.programID c.signer.PublicKey registryName
      = some (registryPDA, bump))
    (hb : deps.buildDelegateNodeAccountInstruction c.programID c.signer.PublicKey registryPDA
      account = .error e) :
    (∃ rest, (c.DelegateNode sol deps registryName account).calls =
      [.findRegistryPDA c.programID c.signer.PublicKey registryName,
       .buildDelegateNodeAccountInstruction, .GetLatestBlockhash] ++ rest) ∧
    (∀ e2, (c.DelegateNode sol deps registryName account).result
      ≠ .error (.buildInstruction e2)) := by
  simp only [RegistryClient.DelegateNode, hreg, hb, Run.after]
  constructor
  · obtain ⟨rest, hrest⟩ := sendNilInstruction_calls c deps
    exact ⟨rest, by rw [hrest]; rfl⟩
  · intro e2 h
    rcases sendNilInstruction_error c deps _ h with h1 | h1 | h1 | h1 <;> cases h1

/-! ## The account fetch -/

/-- The `nil`/empty branch of both getters: when the entry address is derived
and the fetch returns, without an error, a `nil` account info or an account
whose data is empty, both return "not found" (no entry, no error). The
library's fetch returns no `nil` info without an error. -/
theorem getEntry_absent (sol : Solana) (client : GetAccountInfo)
    (programID registry accountToCheck entryPDA : PublicKey) (bump : Byte)
    (hpda : findRegistryEntryPDA sol programID accountToCheck registry = some (entryPDA, bump))
    (hfetch : client entryPDA = .ok none ∨
      ∃ data : Slice, client entryPDA = .ok (some data) ∧ data.len = 0) :
    getClientEntry sol client programID registry accountToCheck = .absent ∧
    getNodeEntry sol client programID registry accountToCheck = .absent := by
  unfold getClientEntry getNodeEntry
  rw [hpda]
  rcases hfetch with hnone | ⟨data, hdata, hlen⟩
  · simp only [hnone, getClientEntryAfterFetch, getNodeEntryAfterFetch, and_self]
  · simp only [hdata, getClientEntryAfterFetch_empty data hlen,
      getNodeEntryAfterFetch_empty data hlen, and_self]

/-- For an entry address that has no account on chain both getters return the
fetch failure. -/
theorem getEntry_missing_account (sol : Solana) (chain : Chain)
    (programID registry accountToCheck entryPDA : PublicKey) (bump : Byte)
    (hpda : findRegistryEntryPDA sol programID accountToCheck registry = some (entryPDA, bump))
    (hmissing : chain entryPDA = none) :
    getClientEntry sol (rpcGetAccountInfo chain) programID registry accountToCheck
      = .failure .getAccountInfo ∧
    getNodeEntry sol (rpcGetAccountInfo chain) programID registry accountToCheck
      = .failure .getAccountInfo := by
  simp only [getClientEntry, getNodeEntry, hpda, rpcGetAccountInfo, hmissing, and_self]

/-- With the library's fetch, "not found" is returned exactly for an account
whose data is empty, never for an address without an account. -/
theorem getClientEntry_absent_iff (sol : Solana) (chain : Chain)
    (programID registry accountToCheck entryPDA : PublicKey) (bump : Byte)
    (hpda : findRegistryEntryPDA sol programID accountToCheck registry = some (entryPDA, bump)) :
    (getClientEntry sol (rpcGetAccountInfo chain) programID registry accountToCheck = .absent
      ↔ chain entryPDA = some []) ∧
    (getNodeEntry sol (rpcGetAccountInfo chain) programID registry accountToCheck = .absent
      ↔ chain entryPDA = some []) := by
  cases hc : chain entryPDA with
  | none =>
    simp only [getClientEntry, getNodeEntry, hpda, rpcGetAccountInfo, hc]
    simp
  | some data =>
    have hlen : (Slice.ofList data).len = data.length := rfl
    by_cases h0 : data.length = 0
    · have hnil : data = [] := List.eq_nil_of_length_eq_zero h0
      subst hnil
      simp only [getClientEntry, getNodeEntry, hpda, rpcGetAccountInfo, hc,
        getClientEntryAfterFetch_empty (Slice.ofList []) rfl,
        getNodeEntryAfterFetch_empty (Slice.ofList []) rfl]
      simp
    · have hne : data ≠ [] := fun h => h0 (by rw [h]; rfl)
      have hl0 : (Slice.ofList data).len ≠ 0 := by rw [hlen]; exact h0
      simp only [getClientEntry, getNodeEntry, hpda, rpcGetAccountInfo, hc]
      constructor
      · constructor
        · intro h
          exfalso
          by_cases h84 : (Slice.ofList data).len = 84
          · rw [getClientEntryAfterFetch_value _ h84] at h
            cases h
          · rw [getClientEntryAfterFetch_unsized _ hl0 h84] at h
            cases h
        · intro h
          exact absurd (Option.some.inj h) hne
      · constructor
        · intro h
          exfalso
          by_cases h334 : (Slice.ofList data).len = 334
          · rw [getNodeEntryAfterFetch_sized _ h334] at h
            split at h <;> cases h
          · rw [getNodeEntryAfterFetch_unsized _ hl0 h334] at h
            cases h
        · intro h
          exact absurd (Option.some.inj h) hne

/-! # The claims -/

/-- C1: on every 84-byte account blob `b` the client-entry decoder succeeds with
parent `b[8:40]`, registered `b[40:72]`, until the signed 64-bit little-endian
value of `b[72:80]` and limit the unsigned 32-bit little-endian value of
`b[80:84]`; two 84-byte blobs that agree from byte 8 onwards decode alike. -/
theorem getClientEntry_reads_fixed_ranges (b : Slice) (h : b.len = 84) :
    ∃ e : ClientEntry, getClientEntryAfterFetch (some b) = .value e ∧
      e.Parent.bytes = subBytes b.toList 8 40 ∧
      e.Registred.bytes = subBytes b.toList 40 72 ∧
      (-(2 ^ 63) ≤ e.Until ∧ e.Until < 2 ^ 63 ∧
        e.Until % 2 ^ 64 = (leValue (subBytes b.toList 72 80) : Nat)) ∧
      e.Limit = leValue (subBytes b.toList 80 84) ∧
      ∀ b' : Slice, b'.len = 84 → b'.toList.drop 8 = b.toList.drop 8 →
        getClientEntryAfterFetch (some b') = .value e := by
  have hlen := b.length_toList
  refine ⟨_, getClientEntryAfterFetch_value b h, ?_, ?_, ?_, ?_, ?_⟩
  · rw [bytes_PublicKeyFromBytes _ (by simp [Slice.ofList]; omega), Slice.toList_ofList]
    rfl
  · rw [bytes_PublicKeyFromBytes _ (by simp [Slice.ofList]; omega), Slice.toList_ofList]
    rfl
  · have hs := toInt64_spec (leValue ((b.toList.drop 72).take 8))
    have hlt := leValue_lt ((b.toList.drop 72).take 8)
    have hl8 : ((b.toList.drop 72).take 8).length = 8 := by
      rw [List.length_take, List.length_drop]
      omega
    rw [hl8] at hlt
    have hmod : leValue ((b.toList.drop 72).take 8) % 2 ^ 64
        = leValue ((b.toList.drop 72).take 8) := Nat.mod_eq_of_lt (by omega)
    rw [hmod] at hs
    exact hs
  · rfl
  · intro b' h' heq
    rw [getClientEntryAfterFetch_value b' h']
    have e1 : ∀ k, b'.toList.drop (8 + k) = b.toList.drop (8 + k) := by
      intro k
      rw [← List.drop_drop, ← List.drop_drop, heq]
    rw [heq, e1 32, e1 64, e1 72]

theorem getClientEntry_reads_fixed_ranges_witness :
    ∃ e : ClientEntry, getClientEntryAfterFetch (some (Slice.ofList sampleClientBlob)) = .value e ∧
      e.Parent.bytes = subBytes (Slice.ofList sampleClientBlob).toList 8 40 ∧
      e.Registred.bytes = subBytes (Slice.ofList sampleClientBlob).toList 40 72 ∧
      (-(2 ^ 63) ≤ e.Until ∧ e.Until < 2 ^ 63 ∧
        e.Until % 2 ^ 64 = (leValue (subBytes (Slice.ofList sampleClientBlob).toList 72 80) : Nat)) ∧
      e.Limit = leValue (subBytes (Slice.ofList sampleClientBlob).toList 80 84) ∧
      ∀ b' : Slice, b'.len = 84 →
        b'.toList.drop 8 = (Slice.ofList sampleClientBlob).toList.drop 8 →
        getClientEntryAfterFetch (some b') = .value e :=
  getClientEntry_reads_fixed_ranges (Slice.ofList sampleClientBlob) (by decide)

/-- C2: for every account blob `b` the node-entry decoder accepts, with
`p = b[8:]` and `L` the unsigned 32-bit little-endian value of `p[64:68]`, the
entry has parent `p[0:32]`, registered `p[32:64]`, domain `p[68:68+L]`, online
the signed 32-bit little-endian value of `p[68+L:72+L]`, and active is true
exactly when the byte `p[72+L]` is 1. -/
theorem getNodeEntry_reads_declared_ranges (b : Slice) (e : NodeEntry)
    (h : getNodeEntryAfterFetch (some b) = .value e) :
    e.Parent.bytes = subBytes (b.toList.drop 8) 0 32 ∧
    e.Registred.bytes = subBytes (b.toList.drop 8) 32 64 ∧
    e.Domain = subBytes (b.toList.drop 8) 68 (68 + leValue (subBytes (b.toList.drop 8) 64 68)) ∧
    (-(2 ^ 31) ≤ e.Online ∧ e.Online < 2 ^ 31 ∧
      e.Online % 2 ^ 32 =
        (leValue (subBytes (b.toList.drop 8)
          (68 + leValue (subBytes (b.toList.drop 8) 64 68))
          (72 + leValue (subBytes (b.toList.drop 8) 64 68))) : Nat)) ∧
    (e.Active = true ↔
      (b.toList.drop 8)[72 + leValue (subBytes (b.toList.drop 8) 64 68)]? = some 1) := by
  obtain ⟨hs, hL⟩ := getNodeEntryAfterFetch_accepts b e h
  have hlen := b.length_toList
  rw [getNodeEntryAfterFetch_sized b hs, if_pos hL] at h
  have he := Outcome.value.inj h
  subst he
  have hsub : subBytes (b.toList.drop 8) 64 68 = (b.toList.drop 72).take 4 := by
    simp only [subBytes, List.drop_drop]
  rw [hsub]
  generalize leValue ((b.toList.drop 72).take 4) = L at hL ⊢
  refine ⟨?_, ?_, ?_, ?_, ?_⟩
  · rw [bytes_PublicKeyFromBytes _ (by simp [Slice.ofList]; omega), Slice.toList_ofList]
    simp only [subBytes, List.drop_drop, List.drop_zero, Nat.sub_zero]
  · rw [bytes_PublicKeyFromBytes _ (by simp [Slice.ofList]; omega), Slice.toList_ofList]
    simp only [subBytes, List.drop_drop]
  · simp only [subBytes, List.drop_drop]
    congr 1
    omega
  · have hsp := toInt32_spec (leValue ((b.toList.drop (76 + L)).take 4))
    have hlt := leValue_lt ((b.toList.drop (76 + L)).take 4)
    have hl4 : ((b.toList.drop (76 + L)).take 4).length = 4 := by
      rw [List.length_take, List.length_drop]
      omega
    rw [hl4] at hlt
    have hmod : leValue ((b.toList.drop (76 + L)).take 4) % 2 ^ 32
        = leValue ((b.toList.drop (76 + L)).take 4) := Nat.mod_eq_of_lt (by omega)
    rw [hmod] at hsp
    have e1 : subBytes (b.toList.drop 8) (68 + L) (72 + L) = (b.toList.drop (76 + L)).take 4 := by
      simp only [subBytes, List.drop_drop]
      have a1 : 8 + (68 + L) = 76 + L := by omega
      have a2 : 72 + L - (68 + L) = 4 := by omega
      rw [a1, a2]
    rw [e1]
    exact hsp
  · have e2 : (b.toList.drop 8)[72 + L]? = b.toList[80 + L]? := by
      rw [List.getElem?_drop]
      congr 1
      omega
    rw [e2]
    simp only [beq_iff_eq]

set_option maxRecDepth 20000 in
theorem getNodeEntry_reads_declared_ranges_witness :
    getNodeEntryAfterFetch (some (Slice.ofList (sampleNodeBlob 3))) =
      .value ⟨sampleKey 1, sampleKey 1, [1, 1, 1], 16843009, true⟩ ∧
    [1, 1, 1] = subBytes ((Slice.ofList (sampleNodeBlob 3)).toList.drop 8) 68
      (68 + leValue (subBytes ((Slice.ofList (sampleNodeBlob 3)).toList.drop 8) 64 68)) :=
  ⟨rfl, (getNodeEntry_reads_declared_ranges (Slice.ofList (sampleNodeBlob 3))
    ⟨sampleKey 1, sampleKey 1, [1, 1, 1], 16843009, true⟩ rfl).2.2.1⟩

/-- C3: decoding a non-empty account blob whose length is not 84 as a client
entry fails with the size error and returns no entry, and a blob of exactly 84
bytes is always decoded to an entry. -/
theorem getClientEntry_size_check (b : Slice) :
    (b.len ≠ 0 → b.len ≠ ClientEntrySize →
      getClientEntryAfterFetch (some b) =
        .failure (.invalidAccountDataSize ClientEntrySize b.len)) ∧
    (b.len = ClientEntrySize → ∃ e, getClientEntryAfterFetch (some b) = .value e) ∧
    ClientEntrySize = 84 :=
  ⟨fun h0 h => getClientEntryAfterFetch_unsized b h0 h,
   fun h => ⟨_, getClientEntryAfterFetch_value b h⟩, rfl⟩

theorem getClientEntry_size_check_witness :
    getClientEntryAfterFetch (some (Slice.ofList (sampleClientBlob ++ [0]))) =
        .failure (.invalidAccountDataSize ClientEntrySize 85) ∧
    ∃ e, getClientEntryAfterFetch (some (Slice.ofList sampleClientBlob)) = .value e :=
  ⟨(getClientEntry_size_check (Slice.ofList (sampleClientBlob ++ [0]))).1
      (by decide) (by decide),
   (getClientEntry_size_check (Slice.ofList sampleClientBlob)).2.1 (by decide)⟩

set_option maxRecDepth 20000 in
/-- C4: on the `NodeEntrySize`-byte blob whose length prefix declares a domain
of 254 bytes, so that the active byte would lie at payload offset 326, one past
the end, the decoder returns neither a size error nor an entry: it panics. It
panics as well when the prefix declares 4294967236 bytes, where `68 + L` wraps
around to 8 in 32-bit arithmetic. -/
theorem getNodeEntry_overrun_panics :
    (Slice.ofList (sampleNodeBlob 254)).len = NodeEntrySize ∧
    leValue (subBytes ((Slice.ofList (sampleNodeBlob 254)).toList.drop 8) 64 68) = 254 ∧
    getNodeEntryAfterFetch (some (Slice.ofList (sampleNodeBlob 254))) = .panic ∧
    toUint32 (68 + 4294967236) = 8 ∧
    getNodeEntryAfterFetch (some (Slice.ofList (sampleNodeBlob 4294967236))) = .panic :=
  ⟨rfl, by decide, getNodeEntryAfterFetch_overrun _ rfl (by decide), by decide,
    getNodeEntryAfterFetch_overrun _ rfl (by decide)⟩

/-- C6, as stated, fails: the 81-byte blob `8 + 32 + 32 + 4 + 0 + 4 + 1` whose
length prefix declares an empty domain is rejected with the size error. -/
theorem getNodeEntry_rejects_tight_blob :
    (Slice.ofList (sampleTightNodeBlob 0)).len = 8 + 32 + 32 + 4 + 0 + 4 + 1 ∧
    leValue (subBytes (Slice.ofList (sampleTightNodeBlob 0)).toList 72 76) = 0 ∧
    getNodeEntryAfterFetch (some (Slice.ofList (sampleTightNodeBlob 0))) =
      .failure (.invalidAccountDataSize NodeEntrySize 81) :=
  ⟨rfl, by decide, by decide⟩

/-- C6, amended: a node entry is read as a record of the fixed size
`NodeEntrySize = 334`. For every declared domain length `L ≤ 253` a blob of
exactly 334 bytes is decoded successfully, to an entry whose domain has `L`
bytes, and a blob of exactly `8 + 32 + 32 + 4 + L + 4 + 1` bytes is rejected
with the size error unless `L = 253`. -/
theorem getNodeEntry_fixed_size (b : Slice) (L : Nat) (hL : L ≤ 253)
    (hdecl : leValue (subBytes b.toList 72 76) = L) :
    (b.len = NodeEntrySize →
      ∃ e, getNodeEntryAfterFetch (some b) = .value e ∧ e.Domain.length = L) ∧
    (b.len = 8 + 32 + 32 + 4 + L + 4 + 1 → L ≠ 253 →
      getNodeEntryAfterFetch (some b) =
        .failure (.invalidAccountDataSize NodeEntrySize b.len)) := by
  have hsub : subBytes b.toList 72 76 = (b.toList.drop 72).take 4 := rfl
  rw [hsub] at hdecl
  constructor
  · intro hs
    have hlen := b.length_toList
    have hs2 : b.len = 334 := hs
    rw [getNodeEntryAfterFetch_sized b hs2, hdecl, if_pos hL]
    refine ⟨_, rfl, ?_⟩
    simp only [List.length_take, List.length_drop]
    omega
  · intro hs hne
    exact getNodeEntryAfterFetch_unsized b (by omega) (by omega)

set_option maxRecDepth 20000 in
theorem getNodeEntry_fixed_size_witness :
    (∃ e, getNodeEntryAfterFetch (some (Slice.ofList (sampleNodeBlob 7))) = .value e ∧
      e.Domain.length = 7) ∧
    getNodeEntryAfterFetch (some (Slice.ofList (sampleTightNodeBlob 7))) =
      .failure (.invalidAccountDataSize NodeEntrySize (Slice.ofList (sampleTightNodeBlob 7)).len) :=
  ⟨(getNodeEntry_fixed_size (Slice.ofList (sampleNodeBlob 7)) 7 (by decide) (by decide)).1 rfl,
   (getNodeEntry_fixed_size (Slice.ofList (sampleTightNodeBlob 7)) 7 (by decide) (by decide)).2
     rfl (by decide)⟩

/-- C7: for an entry address that has no account on chain, the fetch returns
the library's not-found error and both `getClientEntry` and `getNodeEntry`
return the fetch failure, not "not found". They return "not found" (no entry, no
error) for an account whose data is empty, and the entry for an account that
holds one. -/
theorem getEntry_missing_account_fails :
    findRegistryEntryPDA sampleDeriver (sampleKey 1) (sampleKey 4) (sampleKey 3)
      = some (sampleKey 7, 254) ∧
    sampleChain (sampleKey 50) sampleClientBlob (sampleKey 7) = none ∧
    getClientEntry sampleDeriver (rpcGetAccountInfo (sampleChain (sampleKey 50) sampleClientBlob))
      (sampleKey 1) (sampleKey 3) (sampleKey 4) = .failure .getAccountInfo ∧
    getNodeEntry sampleDeriver (rpcGetAccountInfo (sampleChain (sampleKey 50) sampleClientBlob))
      (sampleKey 1) (sampleKey 3) (sampleKey 4) = .failure .getAccountInfo ∧
    getClientEntry sampleDeriver (rpcGetAccountInfo (sampleChain (sampleKey 7) []))
      (sampleKey 1) (sampleKey 3) (sampleKey 4) = .absent ∧
    getNodeEntry sampleDeriver (rpcGetAccountInfo (sampleChain (sampleKey 7) []))
      (sampleKey 1) (sampleKey 3) (sampleKey 4) = .absent ∧
    getClientEntry sampleDeriver (rpcGetAccountInfo (sampleChain (sampleKey 7) sampleClientBlob))
      (sampleKey 1) (sampleKey 3) (sampleKey 4) = .value sampleClientEntry :=
  ⟨rfl, by decide,
   (getEntry_missing_account sampleDeriver _ (sampleKey 1) (sampleKey 3) (sampleKey 4)
     (sampleKey 7) 254 rfl (by decide)).1,
   (getEntry_missing_account sampleDeriver _ (sampleKey 1) (sampleKey 3) (sampleKey 4)
     (sampleKey 7) 254 rfl (by decide)).2,
   (getEntry_absent sampleDeriver _ (sampleKey 1) (sampleKey 3) (sampleKey 4)
     (sampleKey 7) 254 rfl (Or.inr ⟨Slice.ofList [], rfl, rfl⟩)).1,
   (getEntry_absent sampleDeriver _ (sampleKey 1) (sampleKey 3) (sampleKey 4)
     (sampleKey 7) 254 rfl (Or.inr ⟨Slice.ofList [], rfl, rfl⟩)).2,
   rfl⟩

/-- C8: when the entry address is derived, the payload built by
`buildAddClientToRegistryInstruction` is the 8-byte add-client discriminator,
the 32 target-address bytes, eight bytes `u` holding the Unix seconds in two's
complement little-endian, and four bytes `l` holding the limit little-endian:
52 bytes, nothing else. -/
theorem buildAddClient_payload (sol : Solana)
    (programID authority registry accountToAdd : PublicKey)
    (validUntilUnix : Int) (limit : Nat) (pda : PublicKey × Byte)
    (hpda : findRegistryEntryPDA sol programID accountToAdd registry = some pda)
    (hlo : -(2 ^ 63) ≤ validUntilUnix) (hhi : validUntilUnix < 2 ^ 63)
    (hlimit : limit < 2 ^ 32) :
    ∃ (ins : Instruction) (u l : List Byte),
      buildAddClientToRegistryInstruction sol programID authority registry accountToAdd
        validUntilUnix limit = .ok ins ∧
      ins.data = AddClientToRegistryDiscriminator ++ accountToAdd.bytes ++ u ++ l ∧
      AddClientToRegistryDiscriminator.length = 8 ∧ accountToAdd.bytes.length = 32 ∧
      u.length = 8 ∧ ((leValue u : Nat) : Int) = validUntilUnix % 2 ^ 64 ∧
      toInt64 (leValue u) = validUntilUnix ∧
      l.length = 4 ∧ leValue l = limit ∧
      ins.data.length = 52 := by
  obtain ⟨entryPDA, bump⟩ := pda
  simp only [buildAddClientToRegistryInstruction, hpda, List.nil_append]
  refine ⟨_, LittleEndian.PutUint64 (int64ToUint64 validUntilUnix),
    LittleEndian.PutUint32 limit, rfl, rfl, rfl, accountToAdd.size, rfl, ?_, ?_, rfl, ?_, ?_⟩
  · rw [leValue_PutUint64]
    unfold int64ToUint64
    omega
  · rw [leValue_PutUint64]
    have h := toInt64_int64ToUint64 validUntilUnix hlo hhi
    unfold toInt64 at h ⊢
    simp only [Nat.mod_mod] at h ⊢
    exact h
  · rw [leValue_PutUint32]
    exact Nat.mod_eq_of_lt hlimit
  · simp only [List.length_append, accountToAdd.size,
      AddClientToRegistryDiscriminator, LittleEndian.PutUint64, LittleEndian.PutUint32,
      List.length_cons, List.length_nil]

theorem buildAddClient_payload_witness :
    ∃ ins : Instruction,
      buildAddClientToRegistryInstruction sampleSolana (sampleKey 1) (sampleKey 2) (sampleKey 3)
        (sampleKey 4) (-2) 100 = .ok ins ∧
      ins.data = AddClientToRegistryDiscriminator ++ (sampleKey 4).bytes ++
        [254, 255, 255, 255, 255, 255, 255, 255] ++ [100, 0, 0, 0] ∧
      ins.data.length = 52 :=
  match buildAddClient_payload sampleSolana (sampleKey 1) (sampleKey 2) (sampleKey 3)
      (sampleKey 4) (-2) 100 (sampleKey 64, 255) rfl (by decide) (by decide) (by decide) with
  | ⟨ins, _, _, h, _, _, _, _, _, _, _, _, hlen⟩ => ⟨ins, h, by cases h; rfl, hlen⟩

/-- C9: when the entry address is derived and the domain has `n < 2^32` bytes,
the payload built by `buildAddNodeToRegistryInstruction` is the 8-byte add-node
discriminator, the 32 target-address bytes, four bytes `l` holding `n`
little-endian, and the `n` domain bytes: `44 + n` bytes, nothing else. -/
theorem buildAddNode_payload (sol : Solana)
    (programID authority registry accountToAdd : PublicKey)
    (domain : List Byte) (pda : PublicKey × Byte)
    (hpda : findRegistryEntryPDA sol programID accountToAdd registry = some pda)
    (hn : domain.length < 2 ^ 32) :
    ∃ (ins : Instruction) (l : List Byte),
      buildAddNodeToRegistryInstruction sol programID authority registry accountToAdd
        domain = .ok ins ∧
      ins.data = AddNodeToRegistryDiscriminator ++ accountToAdd.bytes ++ l ++ domain ∧
      AddNodeToRegistryDiscriminator.length = 8 ∧ accountToAdd.bytes.length = 32 ∧
      l.length = 4 ∧ leValue l = domain.length ∧
      ins.data.length = 44 + domain.length := by
  obtain ⟨entryPDA, bump⟩ := pda
  simp only [buildAddNodeToRegistryInstruction, hpda, List.nil_append]
  refine ⟨_, LittleEndian.PutUint32 (toUint32 domain.length), rfl, rfl, rfl,
    accountToAdd.size, rfl, ?_, ?_⟩
  · rw [leValue_PutUint32]
    unfold toUint32
    omega
  · simp only [List.length_append, accountToAdd.size,
      AddNodeToRegistryDiscriminator, LittleEndian.PutUint32,
      List.length_cons, List.length_nil]

theorem buildAddNode_payload_witness :
    ∃ ins : Instruction,
      buildAddNodeToRegistryInstruction sampleSolana (sampleKey 1) (sampleKey 2) (sampleKey 3)
        (sampleKey 4) [110, 49, 46, 105, 111] = .ok ins ∧
      ins.data = AddNodeToRegistryDiscriminator ++ (sampleKey 4).bytes ++
        [5, 0, 0, 0] ++ [110, 49, 46, 105, 111] ∧
      ins.data.length = 44 + 5 :=
  match buildAddNode_payload sampleSolana (sampleKey 1) (sampleKey 2) (sampleKey 3)
      (sampleKey 4) [110, 49, 46, 105, 111] (sampleKey 64, 255) rfl (by decide) with
  | ⟨ins, _, h, _, _, _, _, _, hlen⟩ => ⟨ins, h, by cases h; rfl, hlen⟩

/-- C10: when the registry address is derived and the name has `n < 2^32` bytes,
the payload built by `buildInitRegistryInstruction` is the 8-byte init-registry
discriminator, four bytes `l` holding `n` little-endian, and the `n` name bytes:
`12 + n` bytes; the registry address returned is the derived one, and it is the
address of the first entry of the access list. -/
theorem buildInitRegistry_payload (sol : Solana)
    (programID authority : PublicKey) (name : List Byte) (pda : PublicKey × Byte)
    (hpda : findRegistryPDA sol programID authority name = some pda)
    (hn : name.length < 2 ^ 32) :
    ∃ (ins : Instruction) (registryPDA : PublicKey) (l : List Byte),
      buildInitRegistryInstruction sol programID authority name = .ok (ins, registryPDA) ∧
      ins.data = InitRegistryDiscriminator ++ l ++ name ∧
      InitRegistryDiscriminator.length = 8 ∧
      l.length = 4 ∧ leValue l = name.length ∧
      ins.data.length = 12 + name.length ∧
      registryPDA = pda.1 ∧
      (ins.accounts.head?.map fun m => m.pubkey) = some registryPDA := by
  obtain ⟨registryPDA, bump⟩ := pda
  simp only [buildInitRegistryInstruction, hpda, List.nil_append]
  refine ⟨_, _, LittleEndian.PutUint32 (toUint32 name.length), rfl, rfl, rfl, rfl,
    ?_, ?_, rfl, rfl⟩
  · rw [leValue_PutUint32]
    unfold toUint32
    omega
  · simp only [List.length_append, InitRegistryDiscriminator, LittleEndian.PutUint32,
      List.length_cons, List.length_nil]

theorem buildInitRegistry_payload_witness :
    ∃ (ins : Instruction) (registryPDA : PublicKey),
      buildInitRegistryInstruction sampleSolana (sampleKey 1) (sampleKey 2)
        [97, 108, 112, 104, 97] = .ok (ins, registryPDA) ∧
      ins.data = InitRegistryDiscriminator ++ [5, 0, 0, 0] ++ [97, 108, 112, 104, 97] ∧
      ins.data.length = 12 + 5 ∧
      (ins.accounts.head?.map fun m => m.pubkey) = some registryPDA :=
  match buildInitRegistry_payload sampleSolana (sampleKey 1) (sampleKey 2)
      [97, 108, 112, 104, 97] (sampleKey 37, 255) rfl (by decide) with
  | ⟨ins, pk, _, h, _, _, _, _, hlen, _, hhead⟩ => ⟨ins, pk, h, by cases h; rfl, hlen, hhead⟩

/-- C5, as stated, fails for node entries: the node entry with the five-byte
domain `n1.io`, written by the codec's rules, gives an 86-byte blob, and
decoding that blob returns the size error instead of the entry. -/
theorem roundtrip_fails_unpadded_node :
    sampleNodeEntry.Domain.length ≤ 253 ∧
    (writeNodeEntry sampleAccountDiscriminator sampleNodeEntry).length = 86 ∧
    getNodeEntryAfterFetch
        (some (Slice.ofList (writeNodeEntry sampleAccountDiscriminator sampleNodeEntry))) =
      .failure (.invalidAccountDataSize NodeEntrySize 86) :=
  ⟨by decide, rfl, by decide⟩

/-- C5, amended: every client entry (until in int64, limit in uint32) written by
the codec's rules is decoded to the same entry; every node entry whose domain
has at most 253 bytes (online in int32) is decoded to the same entry when the
written record is followed by `253 - len(domain)` further bytes, so that the
account blob has `NodeEntrySize` bytes; and without those bytes a node entry
with a shorter domain is rejected with the size error. -/
theorem roundtrip_fixed_size (disc : List Byte) (hd : disc.length = 8) :
    (∀ (e : ClientEntry) (s : Slice), -(2 ^ 63) ≤ e.Until → e.Until < 2 ^ 63 →
      e.Limit < 2 ^ 32 → s.toList = writeClientEntry disc e →
      getClientEntryAfterFetch (some s) = .value e) ∧
    (∀ (e : NodeEntry) (pad : List Byte) (s : Slice), e.Domain.length ≤ 253 →
      -(2 ^ 31) ≤ e.Online → e.Online < 2 ^ 31 →
      pad.length = 253 - e.Domain.length → s.toList = writeNodeEntry disc e ++ pad →
      getNodeEntryAfterFetch (some s) = .value e) ∧
    (∀ (e : NodeEntry) (s : Slice), e.Domain.length < 253 →
      s.toList = writeNodeEntry disc e →
      getNodeEntryAfterFetch (some s) =
        .failure (.invalidAccountDataSize NodeEntrySize (81 + e.Domain.length))) := by
  refine ⟨?_, ?_, ?_⟩
  · intro e s hlo hhi hlimit hs
    exact getClientEntryAfterFetch_write disc hd e hlo hhi hlimit s hs
  · intro e pad s hdom hlo hhi hpad hs
    exact getNodeEntryAfterFetch_write disc hd e pad hdom hlo hhi hpad s hs
  · intro e s hdom hs
    have hlen : s.len = 81 + e.Domain.length := by
      rw [← s.length_toList, hs]
      simp only [writeNodeEntry, List.length_append, hd, e.Parent.size, e.Registred.size,
        length_PutUint32, List.length_cons, List.length_nil]
      omega
    rw [getNodeEntryAfterFetch_unsized s (by omega) (by omega), hlen]
    rfl

set_option maxRecDepth 20000 in
theorem roundtrip_fixed_size_witness :
    getClientEntryAfterFetch
        (some (Slice.ofList (writeClientEntry sampleAccountDiscriminator sampleClientEntry))) =
      .value sampleClientEntry ∧
    getNodeEntryAfterFetch
        (some (Slice.ofList (writeNodeEntry sampleAccountDiscriminator sampleNodeEntry ++
          List.replicate 248 0))) =
      .value sampleNodeEntry ∧
    getNodeEntryAfterFetch
        (some (Slice.ofList (writeNodeEntry sampleAccountDiscriminator sampleNodeEntry))) =
      .failure (.invalidAccountDataSize NodeEntrySize (81 + 5)) :=
  ⟨(roundtrip_fixed_size sampleAccountDiscriminator rfl).1 sampleClientEntry _
      (by decide) (by decide) (by decide) (Slice.toList_ofList _),
   (roundtrip_fixed_size sampleAccountDiscriminator rfl).2.1 sampleNodeEntry
      (List.replicate 248 0) _ (by decide) (by decide) (by decide) rfl
      (Slice.toList_ofList _),
   (roundtrip_fixed_size sampleAccountDiscriminator rfl).2.2 sampleNodeEntry _
      (by decide) (Slice.toList_ofList _)⟩

/-- C11: when the entry address is derived and `value` is an `int32`, the payload
built by `buildUpdateNodeOnlineInstruction` is the 8-byte update-node-online
discriminator, the 32 target-address bytes, and four bytes `v` holding `value`
in two's complement little-endian: 44 bytes, nothing else. -/
theorem buildUpdateNodeOnline_payload (sol : Solana)
    (programID authority registry accountToUpdate : PublicKey)
    (value : Int) (pda : PublicKey × Byte)
    (hpda : findRegistryEntryPDA sol programID accountToUpdate registry = some pda)
    (hlo : -(2 ^ 31) ≤ value) (hhi : value < 2 ^ 31) :
    ∃ (ins : Instruction) (v : List Byte),
      buildUpdateNodeOnlineInstruction sol programID authority registry accountToUpdate
        value = .ok ins ∧
      ins.data = UpdateNodeOnlineDiscriminator ++ accountToUpdate.bytes ++ v ∧
      UpdateNodeOnlineDiscriminator.length = 8 ∧ accountToUpdate.bytes.length = 32 ∧
      v.length = 4 ∧ ((leValue v : Nat) : Int) = value % 2 ^ 32 ∧
      toInt32 (leValue v) = value ∧
      ins.data.length = 44 := by
  obtain ⟨entryPDA, bump⟩ := pda
  simp only [buildUpdateNodeOnlineInstruction, hpda, List.nil_append]
  refine ⟨_, LittleEndian.PutUint32 (int32ToUint32 value), rfl, rfl, rfl,
    accountToUpdate.size, rfl, ?_, ?_, ?_⟩
  · rw [leValue_PutUint32]
    unfold int32ToUint32
    omega
  · rw [leValue_PutUint32]
    have h := toInt32_int32ToUint32 value hlo hhi
    unfold toInt32 at h ⊢
    simp only [Nat.mod_mod] at h ⊢
    exact h
  · simp only [List.length_append, accountToUpdate.size,
      UpdateNodeOnlineDiscriminator, LittleEndian.PutUint32,
      List.length_cons, List.length_nil]

theorem buildUpdateNodeOnline_payload_witness :
    ∃ ins : Instruction,
      buildUpdateNodeOnlineInstruction sampleSolana (sampleKey 1) (sampleKey 2) (sampleKey 3)
        (sampleKey 4) (-2) = .ok ins ∧
      ins.data = UpdateNodeOnlineDiscriminator ++ (sampleKey 4).bytes ++ [254, 255, 255, 255] ∧
      ins.data.length = 44 :=
  match buildUpdateNodeOnline_payload sampleSolana (sampleKey 1) (sampleKey 2) (sampleKey 3)
      (sampleKey 4) (-2) (sampleKey 64, 255) rfl (by decide) (by decide) with
  | ⟨ins, _, h, _, _, _, _, _, _, hlen⟩ => ⟨ins, h, by cases h; rfl, hlen⟩

/-- C12: when both entry addresses are derived, the payload built by
`buildUpdateNodeActiveInstruction` is the 8-byte update-node-active
discriminator, the 32 target-address bytes, and one flag byte, 1 when `active`
is true and 0 when it is false: 41 bytes, nothing else. -/
theorem buildUpdateNodeActive_payload (sol : Solana)
    (programID accountToUpdate registry authority : PublicKey)
    (active : Bool) (pda authorityPda : PublicKey × Byte)
    (hpda : findRegistryEntryPDA sol programID accountToUpdate registry = some pda)
    (hauth : findRegistryEntryPDA sol programID authority registry = some authorityPda) :
    ∃ ins : Instruction,
      buildUpdateNodeActiveInstruction sol programID accountToUpdate registry authority
        active = .ok ins ∧
      ins.data = UpdateNodeActiveDiscriminator ++ accountToUpdate.bytes ++
        [if active then 1 else 0] ∧
      UpdateNodeActiveDiscriminator.length = 8 ∧ accountToUpdate.bytes.length = 32 ∧
      ins.data.length = 41 := by
  obtain ⟨entryPDA, bump⟩ := pda
  obtain ⟨authorityNodePDA, bump2⟩ := authorityPda
  simp only [buildUpdateNodeActiveInstruction, hpda, hauth, List.nil_append]
  refine ⟨_, rfl, ?_, rfl, accountToUpdate.size, ?_⟩
  · cases active <;> rfl
  · cases active <;>
      simp only [List.length_append, accountToUpdate.size, UpdateNodeActiveDiscriminator,
        List.length_cons, List.length_nil, if_true, if_false, Bool.false_eq_true]

theorem buildUpdateNodeActive_payload_witness :
    ∃ ins : Instruction,
      buildUpdateNodeActiveInstruction sampleSolana (sampleKey 1) (sampleKey 4) (sampleKey 3)
        (sampleKey 2) true = .ok ins ∧
      ins.data = UpdateNodeActiveDiscriminator ++ (sampleKey 4).bytes ++ [1] ∧
      ins.data.length = 41 :=
  match buildUpdateNodeActive_payload sampleSolana (sampleKey 1) (sampleKey 4) (sampleKey 3)
      (sampleKey 2) true (sampleKey 64, 255) (sampleKey 64, 255) rfl rfl with
  | ⟨ins, h, hd, _, _, hlen⟩ => ⟨ins, h, hd, hlen⟩

/-- C13: when the entry address is derived, the payloads built by
`buildRemoveClientFromRegistryInstruction` and
`buildRemoveNodeFromRegistryInstruction` are the operation's own 8-byte
discriminator followed by the 32 target-address bytes: 40 bytes each. -/
theorem buildRemove_payload (sol : Solana)
    (programID authority registry accountToDelete : PublicKey) (pda : PublicKey × Byte)
    (hpda : findRegistryEntryPDA sol programID accountToDelete registry = some pda) :
    (∃ ins : Instruction,
      buildRemoveClientFromRegistryInstruction sol programID authority registry
        accountToDelete = .ok ins ∧
      ins.data = RemoveClientFromRegistryDiscriminator ++ accountToDelete.bytes ∧
      ins.data.length = 40) ∧
    (∃ ins : Instruction,
      buildRemoveNodeFromRegistryInstruction sol programID authority registry
        accountToDelete = .ok ins ∧
      ins.data = RemoveNodeFromRegistryDiscriminator ++ accountToDelete.bytes ∧
      ins.data.length = 40) ∧
    RemoveClientFromRegistryDiscriminator.length = 8 ∧
    RemoveNodeFromRegistryDiscriminator.length = 8 ∧
    accountToDelete.bytes.length = 32 := by
  obtain ⟨entryPDA, bump⟩ := pda
  simp only [buildRemoveClientFromRegistryInstruction, buildRemoveNodeFromRegistryInstruction,
    hpda, List.nil_append]
  refine ⟨⟨_, rfl, rfl, ?_⟩, ⟨_, rfl, rfl, ?_⟩, rfl, rfl, accountToDelete.size⟩
  · simp only [List.length_append, accountToDelete.size,
      RemoveClientFromRegistryDiscriminator, List.length_cons, List.length_nil]
  · simp only [List.length_append, accountToDelete.size,
      RemoveNodeFromRegistryDiscriminator, List.length_cons, List.length_nil]

theorem buildRemove_payload_witness :
    (∃ ins : Instruction,
      buildRemoveClientFromRegistryInstruction sampleSolana (sampleKey 1) (sampleKey 2)
        (sampleKey 3) (sampleKey 4) = .ok ins ∧
      ins.data = RemoveClientFromRegistryDiscriminator ++ (sampleKey 4).bytes ∧
      ins.data.length = 40) ∧
    (∃ ins : Instruction,
      buildRemoveNodeFromRegistryInstruction sampleSolana (sampleKey 1) (sampleKey 2)
        (sampleKey 3) (sampleKey 4) = .ok ins ∧
      ins.data = RemoveNodeFromRegistryDiscriminator ++ (sampleKey 4).bytes ∧
      ins.data.length = 40) :=
  ⟨(buildRemove_payload sampleSolana (sampleKey 1) (sampleKey 2) (sampleKey 3) (sampleKey 4)
      (sampleKey 64, 255) rfl).1,
   (buildRemove_payload sampleSolana (sampleKey 1) (sampleKey 2) (sampleKey 3) (sampleKey 4)
      (sampleKey 64, 255) rfl).2.1⟩

/-- C16: `findRegistryPDA` derives under the given program id with the seed list
`[authority bytes, name bytes]`, and `findRegistryEntryPDA` with the seed list
`[target account bytes, registry bytes]`, in that order, every address seed
being 32 bytes; each result is determined by the program id, the address bytes
and the name alone. -/
theorem findPDA_seeds (sol : Solana) (programID authority accountToAdd registry : PublicKey)
    (name : List Byte) :
    findRegistryPDA sol programID authority name =
      sol.FindProgramAddress [authority.bytes, name] programID ∧
    findRegistryEntryPDA sol programID accountToAdd registry =
      sol.FindProgramAddress [accountToAdd.bytes, registry.bytes] programID ∧
    authority.bytes.length = 32 ∧ accountToAdd.bytes.length = 32 ∧
    registry.bytes.length = 32 ∧
    (∀ (programID2 authority2 : PublicKey) (name2 : List Byte),
      programID2.bytes = programID.bytes → authority2.bytes = authority.bytes →
      name2 = name →
      findRegistryPDA sol programID2 authority2 name2 =
        findRegistryPDA sol programID authority name) ∧
    (∀ (programID2 accountToAdd2 registry2 : PublicKey),
      programID2.bytes = programID.bytes → accountToAdd2.bytes = accountToAdd.bytes →
      registry2.bytes = registry.bytes →
      findRegistryEntryPDA sol programID2 accountToAdd2 registry2 =
        findRegistryEntryPDA sol programID accountToAdd registry) := by
  refine ⟨rfl, rfl, authority.size, accountToAdd.size, registry.size, ?_, ?_⟩
  · intro p2 a2 n2 hp ha hn
    rw [PublicKey.ext_bytes _ _ hp, PublicKey.ext_bytes _ _ ha, hn]
  · intro p2 a2 r2 hp ha hr
    rw [PublicKey.ext_bytes _ _ hp, PublicKey.ext_bytes _ _ ha, PublicKey.ext_bytes _ _ hr]

theorem findPDA_seeds_witness :
    findRegistryPDA sampleDeriver (sampleKey 1) (sampleKey 2) [97, 108] =
      sampleDeriver.FindProgramAddress [(sampleKey 2).bytes, [97, 108]] (sampleKey 1) ∧
    findRegistryPDA sampleDeriver (sampleKey 1) (PublicKeyFromBytes (Slice.ofList (sampleKey 2).bytes))
        [97, 108] =
      findRegistryPDA sampleDeriver (sampleKey 1) (sampleKey 2) [97, 108] :=
  ⟨(findPDA_seeds sampleDeriver (sampleKey 1) (sampleKey 2) (sampleKey 4) (sampleKey 3)
      [97, 108]).1,
   (findPDA_seeds sampleDeriver (sampleKey 1) (sampleKey 2) (sampleKey 4) (sampleKey 3)
      [97, 108]).2.2.2.2.2.1 (sampleKey 1) (PublicKeyFromBytes (Slice.ofList (sampleKey 2).bytes))
      [97, 108] rfl (by decide) rfl⟩

/-- C17, as stated, fails for update-node-active: the third entry of its access
list is the authority's own entry address, which is not marked as signer; the
signer comes fourth. -/
theorem buildUpdateNodeActive_third_account_not_signer :
    ∃ ins : Instruction,
      buildUpdateNodeActiveInstruction sampleDeriver (sampleKey 1) (sampleKey 4) (sampleKey 3)
        (sampleKey 2) true = .ok ins ∧
      ins.accounts =
        [⟨sampleKey 7, true, false⟩, ⟨sampleKey 3, false, false⟩,
         ⟨sampleKey 5, false, false⟩, ⟨sampleKey 2, false, true⟩] ∧
      (ins.accounts[2]?.map fun m => m.IsSigner) = some false :=
  ⟨_, rfl, by decide, by decide⟩

/-- C17, amended: add-client, add-node, remove-client, remove-node and
update-node-online list the entry address derived from (target, registry),
writable and not a signer, then the registry address, read-only, then the
authority marked as signer and writable; add-client and add-node end with the
read-only system program as a fourth entry, as init-registry does after its
registry address and authority, and the other three have exactly three
entries. Update-node-active lists the entry address, the registry address, the
authority's own entry address derived from (authority, registry), read-only and
not a signer, and then the authority marked as signer and not writable. -/
theorem builders_access_lists (sol : Solana)
    (programID authority registry target : PublicKey) (name domain : List Byte)
    (validUntilUnix value : Int) (limit : Nat) (active : Bool)
    (entryPDA authorityNodePDA registryPDA : PublicKey) (b1 b2 b3 : Byte)
    (hentry : findRegistryEntryPDA sol programID target registry = some (entryPDA, b1))
    (hauth : findRegistryEntryPDA sol programID authority registry
      = some (authorityNodePDA, b2))
    (hreg : findRegistryPDA sol programID authority name = some (registryPDA, b3)) :
    (∃ ins, buildAddClientToRegistryInstruction sol programID authority registry target
        validUntilUnix limit = .ok ins ∧
      ins.accounts = [⟨entryPDA, true, false⟩, ⟨registry, false, false⟩,
        ⟨authority, true, true⟩, ⟨sol.SystemProgramID, false, false⟩]) ∧
    (∃ ins, buildAddNodeToRegistryInstruction sol programID authority registry target
        domain = .ok ins ∧
      ins.accounts = [⟨entryPDA, true, false⟩, ⟨registry, false, false⟩,
        ⟨authority, true, true⟩, ⟨sol.SystemProgramID, false, false⟩]) ∧
    (∃ ins, buildRemoveClientFromRegistryInstruction sol programID authority registry
        target = .ok ins ∧
      ins.accounts = [⟨entryPDA, true, false⟩, ⟨registry, false, false⟩,
        ⟨authority, true, true⟩]) ∧
    (∃ ins, buildRemoveNodeFromRegistryInstruction sol programID authority registry
        target = .ok ins ∧
      ins.accounts = [⟨entryPDA, true, false⟩, ⟨registry, false, false⟩,
        ⟨authority, true, true⟩]) ∧
    (∃ ins, buildUpdateNodeOnlineInstruction sol programID authority registry target
        value = .ok ins ∧
      ins.accounts = [⟨entryPDA, true, false⟩, ⟨registry, false, false⟩,
        ⟨authority, true, true⟩]) ∧
    (∃ ins, buildUpdateNodeActiveInstruction sol programID target registry authority
        active = .ok ins ∧
      ins.accounts = [⟨entryPDA, true, false⟩, ⟨registry, false, false⟩,
        ⟨authorityNodePDA, false, false⟩, ⟨authority, false, true⟩]) ∧
    (∃ ins, buildInitRegistryInstruction sol programID authority name
        = .ok (ins, registryPDA) ∧
      ins.accounts = [⟨registryPDA, true, false⟩, ⟨authority, true, true⟩,
        ⟨sol.SystemProgramID, false, false⟩]) := by
  simp only [buildAddClientToRegistryInstruction, buildAddNodeToRegistryInstruction,
    buildRemoveClientFromRegistryInstruction, buildRemoveNodeFromRegistryInstruction,
    buildUpdateNodeOnlineInstruction, buildUpdateNodeActiveInstruction,
    buildInitRegistryInstruction, hentry, hauth, hreg]
  exact ⟨⟨_, rfl, rfl⟩, ⟨_, rfl, rfl⟩, ⟨_, rfl, rfl⟩, ⟨_, rfl, rfl⟩, ⟨_, rfl, rfl⟩,
    ⟨_, rfl, rfl⟩, ⟨_, rfl, rfl⟩⟩

theorem builders_access_lists_witness :
    (∃ ins, buildAddClientToRegistryInstruction sampleDeriver (sampleKey 1) (sampleKey 2)
        (sampleKey 3) (sampleKey 4) (-2) 100 = .ok ins ∧
      ins.accounts = [⟨sampleKey 7, true, false⟩, ⟨sampleKey 3, false, false⟩,
        ⟨sampleKey 2, true, true⟩, ⟨sampleKey 0, false, false⟩]) ∧
    (∃ ins, buildUpdateNodeOnlineInstruction sampleDeriver (sampleKey 1) (sampleKey 2)
        (sampleKey 3) (sampleKey 4) 5 = .ok ins ∧
      ins.accounts = [⟨sampleKey 7, true, false⟩, ⟨sampleKey 3, false, false⟩,
        ⟨sampleKey 2, true, true⟩]) :=
  ⟨(builders_access_lists sampleDeriver (sampleKey 1) (sampleKey 2) (sampleKey 3) (sampleKey 4)
      [97] [110] (-2) 5 100 true (sampleKey 7) (sampleKey 5) (sampleKey 99) 254 254 254
      rfl rfl rfl).1,
   (builders_access_lists sampleDeriver (sampleKey 1) (sampleKey 2) (sampleKey 3) (sampleKey 4)
      [97] [110] (-2) 5 100 true (sampleKey 7) (sampleKey 5) (sampleKey 99) 254 254 254
      rfl rfl rfl).2.2.2.2.1⟩

set_option maxRecDepth 20000 in
/-- C14, as stated, fails: `buildAddNodeToRegistryInstruction` checks no length;
given a domain of 254 bytes it produces an instruction, whose payload carries
the length prefix 254. -/
theorem buildAddNode_accepts_254_bytes :
    (List.replicate 254 (97 : Byte)).length = 254 ∧
    ∃ ins : Instruction,
      buildAddNodeToRegistryInstruction sampleDeriver (sampleKey 1) (sampleKey 2) (sampleKey 3)
        (sampleKey 4) (List.replicate 254 97) = .ok ins ∧
      subBytes ins.data 40 44 = [254, 0, 0, 0] :=
  ⟨rfl, _, rfl, rfl⟩

/-- C14, amended: the domain is checked by `RegistryClient.AddNodeToRegistry`,
not by the builder. A domain of 254 bytes or more makes the method return the
domain-too-long error before any call; with a domain of at most 253 bytes the
method goes on to derive the registry address and, when that succeeds, to the
builder. The builder produces an instruction for a domain of any length
whenever the entry address is derived. -/
theorem AddNodeToRegistry_checks_domain (sol : Solana) (c : RegistryClient)
    (registryName domain : List Byte) (accountToAdd : PublicKey) :
    (254 ≤ domain.length →
      (c.AddNodeToRegistry sol registryName accountToAdd domain).result
        = .error .domainTooLong ∧
      (c.AddNodeToRegistry sol registryName accountToAdd domain).calls = []) ∧
    (domain.length ≤ 253 →
      (c.AddNodeToRegistry sol registryName accountToAdd domain).result
        ≠ .error .domainTooLong ∧
      ∃ rest, (c.AddNodeToRegistry sol registryName accountToAdd domain).calls =
        .findRegistryPDA c.programID c.signer.PublicKey registryName :: rest ∧
        ((findRegistryPDA sol c.programID c.signer.PublicKey registryName).isSome →
          rest.head? = some (.buildInstruction .AddNodeToRegistry))) ∧
    (∀ (authority registry : PublicKey) (pda : PublicKey × Byte),
      findRegistryEntryPDA sol c.programID accountToAdd registry = some pda →
      ∃ ins, buildAddNodeToRegistryInstruction sol c.programID authority registry
        accountToAdd domain = .ok ins) := by
  refine ⟨?_, ?_, ?_⟩
  · intro h
    have hgt : domain.length > 253 := by omega
    simp only [RegistryClient.AddNodeToRegistry, hgt, if_true, and_self]
  · intro h
    have hgt : ¬ domain.length > 253 := by omega
    cases hreg : findRegistryPDA sol c.programID c.signer.PublicKey registryName with
    | none =>
      simp only [RegistryClient.AddNodeToRegistry, hgt, if_false, hreg]
      refine ⟨by simp, [], rfl, ?_⟩
      intro hsome
      cases hsome
    | some pda =>
      obtain ⟨registryPDA, bump⟩ := pda
      cases hb : buildAddNodeToRegistryInstruction sol c.programID c.signer.PublicKey
          registryPDA accountToAdd domain with
      | error e =>
        simp only [RegistryClient.AddNodeToRegistry, hgt, if_false, hreg, hb]
        exact ⟨by simp, _, rfl, fun _ => rfl⟩
      | ok ins =>
        simp only [RegistryClient.AddNodeToRegistry, hgt, if_false, hreg, hb, Run.after]
        refine ⟨?_, _, rfl, fun _ => rfl⟩
        intro hres
        rcases sendInstruction_error c ins _ hres with h1 | h1 | h1 | h1 <;> cases h1
  · intro authority registry pda hpda
    obtain ⟨entryPDA, bump⟩ := pda
    simp only [buildAddNodeToRegistryInstruction, hpda]
    exact ⟨_, rfl⟩

set_option maxRecDepth 20000 in
theorem AddNodeToRegistry_checks_domain_witness :
    ((sampleRegistryClient []).AddNodeToRegistry sampleDeriver [97] (sampleKey 4)
        (List.replicate 254 97)).result = .error .domainTooLong ∧
    ((sampleRegistryClient []).AddNodeToRegistry sampleDeriver [97] (sampleKey 4)
        (List.replicate 253 97)).result ≠ .error .domainTooLong ∧
    ∃ ins, buildAddNodeToRegistryInstruction sampleDeriver (sampleRegistryClient []).programID
        (sampleKey 2) (sampleKey 3) (sampleKey 4) (List.replicate 253 97) = .ok ins :=
  ⟨((AddNodeToRegistry_checks_domain sampleDeriver (sampleRegistryClient []) [97]
      (List.replicate 254 97) (sampleKey 4)).1 (by decide)).1,
   ((AddNodeToRegistry_checks_domain sampleDeriver (sampleRegistryClient []) [97]
      (List.replicate 253 97) (sampleKey 4)).2.1 (by decide)).1,
   (AddNodeToRegistry_checks_domain sampleDeriver (sampleRegistryClient []) [97]
      (List.replicate 253 97) (sampleKey 4)).2.2 (sampleKey 2) (sampleKey 3)
      (sampleKey 7, 254) rfl⟩

/-- C15: with a negative `value`, `RegistryClient.UpdateNodeOnline` returns the
negative-online-value error without having made any call: no derivation, no
builder, no collaborator. With `value = 0` or `value > 0` it does not return
that error; it calls `findRegistryPDA` first and, when the registry address is
derived, the update-node-online builder next. -/
theorem UpdateNodeOnline_checks_value (sol : Solana) (c : RegistryClient)
    (registryName : List Byte) (authority accountToUpdate : PublicKey) (value : Int) :
    (value < 0 →
      (c.UpdateNodeOnline sol registryName authority accountToUpdate value).result
        = .error .negativeOnlineValue ∧
      (c.UpdateNodeOnline sol registryName authority accountToUpdate value).calls = []) ∧
    (0 ≤ value →
      (c.UpdateNodeOnline sol registryName authority accountToUpdate value).result
        ≠ .error .negativeOnlineValue ∧
      ∃ rest, (c.UpdateNodeOnline sol registryName authority accountToUpdate value).calls =
        .findRegistryPDA c.programID authority registryName :: rest ∧
        ((findRegistryPDA sol c.programID authority registryName).isSome →
          rest.head? = some (.buildInstruction .UpdateNodeOnline))) := by
  refine ⟨?_, ?_⟩
  · intro h
    simp only [RegistryClient.UpdateNodeOnline, h, if_true, and_self]
  · intro h
    have hneg : ¬ value < 0 := by omega
    cases hreg : findRegistryPDA sol c.programID authority registryName with
    | none =>
      simp only [RegistryClient.UpdateNodeOnline, hneg, if_false, hreg]
      refine ⟨by simp, [], rfl, ?_⟩
      intro hsome
      cases hsome
    | some pda =>
      obtain ⟨registryPDA, bump⟩ := pda
      cases hb : buildUpdateNodeOnlineInstruction sol c.programID accountToUpdate
          registryPDA accountToUpdate value with
      | error e =>
        simp only [RegistryClient.UpdateNodeOnline, hneg, if_false, hreg, hb]
        exact ⟨by simp, _, rfl, fun _ => rfl⟩
      | ok ins =>
        simp only [RegistryClient.UpdateNodeOnline, hneg, if_false, hreg, hb, Run.after]
        refine ⟨?_, _, rfl, fun _ => rfl⟩
        intro hres
        rcases sendInstruction_error c ins _ hres with h1 | h1 | h1 | h1 <;> cases h1

theorem UpdateNodeOnline_checks_value_witness :
    (((sampleRegistryClient []).UpdateNodeOnline sampleDeriver [97] (sampleKey 2) (sampleKey 4)
        (-1)).result = .error .negativeOnlineValue ∧
      ((sampleRegistryClient []).UpdateNodeOnline sampleDeriver [97] (sampleKey 2) (sampleKey 4)
        (-1)).calls = []) ∧
    ((sampleRegistryClient []).UpdateNodeOnline sampleDeriver [97] (sampleKey 2) (sampleKey 4)
        0).result ≠ .error .negativeOnlineValue ∧
    ((sampleRegistryClient []).UpdateNodeOnline sampleDeriver [97] (sampleKey 2) (sampleKey 4)
        0).calls.take 3 =
      [.findRegistryPDA (sampleKey 1) (sampleKey 2) [97], .buildInstruction .UpdateNodeOnline,
       .GetLatestBlockhash] :=
  ⟨(UpdateNodeOnline_checks_value sampleDeriver (sampleRegistryClient []) [97] (sampleKey 2)
      (sampleKey 4) (-1)).1 (by decide),
   ((UpdateNodeOnline_checks_value sampleDeriver (sampleRegistryClient []) [97] (sampleKey 2)
      (sampleKey 4) 0).2 (by decide)).1,
   rfl⟩

/-- C19: when the registry address is derived and the scan succeeds,
`ListClientsInRegistry` returns, without error, one entry for every scanned
blob of 84 bytes, in scan order, each being what the client-entry decoder makes
of that blob; blobs of any other length contribute nothing. The result is never
longer than the scan, and an empty scan gives an empty sequence. -/
theorem ListClientsInRegistry_entries (sol : Solana) (c : RegistryClient)
    (registryName : List Byte) (registryPDA : PublicKey) (bump : Byte)
    (accounts : List (PublicKey × Slice))
    (hpda : findRegistryPDA sol c.programID c.signer.PublicKey registryName
      = some (registryPDA, bump))
    (hscan : c.client.GetProgramAccountsWithOpts c.programID
      [.Memcmp 8 registryPDA.bytes, .DataSize ClientEntrySize] = .ok accounts) :
    ∃ es : List ClientEntry,
      (c.ListClientsInRegistry sol registryName).result = .entries es ∧
      es.map Outcome.value =
        (accounts.filter fun a => decide (a.2.len = 84)).map
          (fun a => getClientEntryAfterFetch (some a.2)) ∧
      es.length ≤ accounts.length ∧
      (accounts = [] → es = []) := by
  obtain ⟨es, h1, h2, h3⟩ := listClientsLoop_entries accounts []
  refine ⟨es, ?_, h2, h3, ?_⟩
  · simp only [RegistryClient.ListClientsInRegistry, hpda, hscan]
    rw [h1, List.nil_append]
  · intro hnil
    subst hnil
    exact List.eq_nil_of_length_eq_zero (Nat.le_zero.mp h3)

theorem ListClientsInRegistry_entries_witness :
    ∃ es : List ClientEntry,
      ((sampleRegistryClient
          [(sampleKey 8, Slice.ofList sampleClientBlob),
           (sampleKey 9, Slice.ofList (sampleClientBlob ++ [0])),
           (sampleKey 10, Slice.ofList sampleClientBlob)]).ListClientsInRegistry
        sampleDeriver [97]).result = .entries es ∧
      es.map Outcome.value =
        [getClientEntryAfterFetch (some (Slice.ofList sampleClientBlob)),
         getClientEntryAfterFetch (some (Slice.ofList sampleClientBlob))] ∧
      es.length ≤ 3 :=
  match ListClientsInRegistry_entries sampleDeriver
      (sampleRegistryClient
        [(sampleKey 8, Slice.ofList sampleClientBlob),
         (sampleKey 9, Slice.ofList (sampleClientBlob ++ [0])),
         (sampleKey 10, Slice.ofList sampleClientBlob)])
      [97] (sampleKey 99) 254 _ rfl rfl with
  | ⟨es, h, hmap, hlen, _⟩ => ⟨es, h, hmap, hlen⟩

/-- C18: when the registry address is derived from the held key and the
registry name, `ListClientsInRegistry` and `ListNodesInRegistry` each make one
scan, with exactly two filters: a byte match at offset 8 against the 32 bytes of
that registry address, and the data size 84 for clients, `NodeEntrySize` for
nodes. When every scanned blob satisfies both filters, the client listing
returns one entry per blob and every entry returned by either listing has that
registry address as its parent. -/
theorem List_scan_filters (sol : Solana) (c : RegistryClient)
    (registryName : List Byte) (registryPDA : PublicKey) (bump : Byte)
    (hpda : findRegistryPDA sol c.programID c.signer.PublicKey registryName
      = some (registryPDA, bump)) :
    (c.ListClientsInRegistry sol registryName).calls =
      [.findRegistryPDA c.programID c.signer.PublicKey registryName,
       .GetProgramAccountsWithOpts c.programID
         [.Memcmp 8 registryPDA.bytes, .DataSize 84]] ∧
    (c.ListNodesInRegistry sol registryName).calls =
      [.findRegistryPDA c.programID c.signer.PublicKey registryName,
       .GetProgramAccountsWithOpts c.programID
         [.Memcmp 8 registryPDA.bytes, .DataSize NodeEntrySize]] ∧
    registryPDA.bytes.length = 32 ∧
    (∀ accounts : List (PublicKey × Slice),
      c.client.GetProgramAccountsWithOpts c.programID
        [.Memcmp 8 registryPDA.bytes, .DataSize 84] = .ok accounts →
      (∀ a ∈ accounts, (RPCFilter.Memcmp 8 registryPDA.bytes).selects a.2.toList ∧
        (RPCFilter.DataSize 84).selects a.2.toList) →
      ∃ es, (c.ListClientsInRegistry sol registryName).result = .entries es ∧
        es.length = accounts.length ∧ ∀ e ∈ es, e.Parent = registryPDA) ∧
    (∀ (accounts : List (PublicKey × Slice)) (es : List NodeEntry),
      c.client.GetProgramAccountsWithOpts c.programID
        [.Memcmp 8 registryPDA.bytes, .DataSize NodeEntrySize] = .ok accounts →
      (∀ a ∈ accounts, (RPCFilter.Memcmp 8 registryPDA.bytes).selects a.2.toList ∧
        (RPCFilter.DataSize NodeEntrySize).selects a.2.toList) →
      (c.ListNodesInRegistry sol registryName).result = .entries es →
      ∀ e ∈ es, e.Parent = registryPDA) := by
  refine ⟨?_, ?_, registryPDA.size, ?_, ?_⟩
  · simp only [RegistryClient.ListClientsInRegistry, hpda, ClientEntrySize]
    split <;> rfl
  · simp only [RegistryClient.ListNodesInRegistry, hpda]
    split <;> rfl
  · intro accounts hscan hsel
    obtain ⟨es, h1, h2, _⟩ := listClientsLoop_entries accounts []
    have hall : ∀ a ∈ accounts, a.2.len = 84 := fun a ha =>
      len_of_selects a.2 84 (hsel a ha).2
    have hfilter : (accounts.filter fun a => decide (a.2.len = 84)) = accounts := by
      apply List.filter_eq_self.mpr
      intro a ha
      simp only [hall a ha, decide_True]
    rw [hfilter] at h2
    refine ⟨es, ?_, ?_, ?_⟩
    · have hscan2 : c.client.GetProgramAccountsWithOpts c.programID
          [.Memcmp 8 registryPDA.bytes, .DataSize ClientEntrySize] = .ok accounts := hscan
      simp only [RegistryClient.ListClientsInRegistry, hpda, hscan2]
      rw [h1, List.nil_append]
    · have := congrArg List.length h2
      simpa only [List.length_map] using this
    · intro e he
      have hmem : Outcome.value e ∈ es.map Outcome.value := List.mem_map_of_mem _ he
      rw [h2] at hmem
      obtain ⟨a, ha, hdec⟩ := List.mem_map.mp hmem
      rw [listClientsEntry_parent a.2 (hall a ha) e hdec]
      exact parent_of_selects _ _ (hsel a ha).1
  · intro accounts es hscan hsel hres
    simp only [RegistryClient.ListNodesInRegistry, hpda, hscan] at hres
    intro e he
    rcases listNodesLoop_mem accounts [] es hres e he with hnil | ⟨a, ha, hlen, hentry⟩
    · cases hnil
    · rw [listNodesEntry_parent a.2 hlen e hentry]
      exact parent_of_selects _ _ (hsel a ha).1

theorem List_scan_filters_witness :
    ∃ es : List ClientEntry,
      ((sampleRegistryClient [(sampleKey 8, Slice.ofList sampleListedClientBlob)]).ListClientsInRegistry
        sampleDeriver [97]).result = .entries es ∧
      es.length = 1 ∧ ∀ e ∈ es, e.Parent = sampleKey 99 :=
  (List_scan_filters sampleDeriver
      (sampleRegistryClient [(sampleKey 8, Slice.ofList sampleListedClientBlob)])
      [97] (sampleKey 99) 254 rfl).2.2.2.1
    [(sampleKey 8, Slice.ofList sampleListedClientBlob)] rfl
    (fun a ha => by
      have h : a = (sampleKey 8, Slice.ofList sampleListedClientBlob) := by simpa using ha
      subst h
      exact ⟨rfl, rfl⟩)

set_option maxRecDepth 20000 in
/-- C20: a scanned blob of the wrong total size is skipped, but a scanned blob
of `NodeEntrySize` bytes whose length prefix declares a domain of 254 bytes makes
`ListNodesInRegistry` panic, although a well-formed blob precedes it. -/
theorem ListNodesInRegistry_overrun_panics :
    ((sampleRegistryClient
        [(sampleKey 8, Slice.ofList (sampleNodeBlob 3)),
         (sampleKey 9, Slice.ofList (sampleTightNodeBlob 0))]).ListNodesInRegistry
      sampleDeriver [97]).result =
        .entries [⟨sampleKey 1, sampleKey 1, [1, 1, 1], 16843009, true⟩] ∧
    (Slice.ofList (sampleNodeBlob 254)).len = NodeEntrySize ∧
    ((sampleRegistryClient
        [(sampleKey 8, Slice.ofList (sampleNodeBlob 3)),
         (sampleKey 9, Slice.ofList (sampleNodeBlob 254))]).ListNodesInRegistry
      sampleDeriver [97]).result = .panic :=
  ⟨rfl, rfl,
   listNodesLoop_overrun [(sampleKey 8, Slice.ofList (sampleNodeBlob 3))] []
     (sampleKey 9, Slice.ofList (sampleNodeBlob 254)) rfl (by decide) []⟩

/-- C21: each of the nine discriminator constants is exactly 8 bytes long and
the nine are pairwise distinct; every payload a builder produces starts with the
discriminator of its operation, so payloads built for two different operations
are never equal, and two payloads with the same first 8 bytes come from the
same operation. -/
theorem discriminators_identify_operation (sol : Solana) :
    (∀ d ∈ [InitRegistryDiscriminator, AddClientToRegistryDiscriminator,
        AddNodeToRegistryDiscriminator, CheckClientDiscriminator, CheckNodeDiscriminator,
        RemoveClientFromRegistryDiscriminator, RemoveNodeFromRegistryDiscriminator,
        UpdateNodeOnlineDiscriminator, UpdateNodeActiveDiscriminator], d.length = 8) ∧
    [InitRegistryDiscriminator, AddClientToRegistryDiscriminator,
      AddNodeToRegistryDiscriminator, CheckClientDiscriminator, CheckNodeDiscriminator,
      RemoveClientFromRegistryDiscriminator, RemoveNodeFromRegistryDiscriminator,
      UpdateNodeOnlineDiscriminator, UpdateNodeActiveDiscriminator].Pairwise (· ≠ ·) ∧
    (∀ (b : Builder) (ins : Instruction), Builds sol b ins →
      ins.data.take 8 = b.discriminator) ∧
    (∀ (b1 b2 : Builder) (ins1 ins2 : Instruction), Builds sol b1 ins1 → Builds sol b2 ins2 →
      b1 ≠ b2 → ins1.data ≠ ins2.data) ∧
    (∀ (b1 b2 : Builder) (ins1 ins2 : Instruction), Builds sol b1 ins1 → Builds sol b2 ins2 →
      ins1.data.take 8 = ins2.data.take 8 → b1 = b2) := by
  refine ⟨by decide, by decide, ?_, ?_, ?_⟩
  · intro b ins h
    exact Builds.take_discriminator sol b ins h
  · intro b1 b2 ins1 ins2 h1 h2 hne hdata
    apply hne
    apply Builder.discriminator_injective
    rw [← Builds.take_discriminator sol b1 ins1 h1, ← Builds.take_discriminator sol b2 ins2 h2,
      hdata]
  · intro b1 b2 ins1 ins2 h1 h2 htake
    apply Builder.discriminator_injective
    rw [← Builds.take_discriminator sol b1 ins1 h1, ← Builds.take_discriminator sol b2 ins2 h2,
      htake]

theorem discriminators_identify_operation_witness :
    (⟨sampleKey 1, [⟨sampleKey 7, true, false⟩, ⟨sampleKey 3, false, false⟩,
        ⟨sampleKey 2, true, true⟩],
      RemoveClientFromRegistryDiscriminator ++ (sampleKey 4).bytes⟩ : Instruction).data ≠
    (⟨sampleKey 1, [⟨sampleKey 7, true, false⟩, ⟨sampleKey 3, false, false⟩,
        ⟨sampleKey 2, true, true⟩],
      RemoveNodeFromRegistryDiscriminator ++ (sampleKey 4).bytes⟩ : Instruction).data :=
  (discriminators_identify_operation sampleDeriver).2.2.2.1
    .RemoveClientFromRegistry .RemoveNodeFromRegistry _ _
    (.RemoveClientFromRegistry (sampleKey 1) (sampleKey 2) (sampleKey 3) (sampleKey 4) _ rfl)
    (.RemoveNodeFromRegistry (sampleKey 1) (sampleKey 2) (sampleKey 3) (sampleKey 4) _ rfl)
    (by decide)

/-- C22: the key getter passed to the signing step returns the held private key
for the held public key and nothing for any other key. Hence, with a library
that signs as specified, a write method whose built instruction marks as signer
an account other than the held key never returns a signature and never submits,
and returns the signing error whenever it reaches the signing step.
`UpdateNodeOnline` builds its instruction with `accountToUpdate` as the only
signer, the `authority` argument serving the registry derivation alone; so with
`accountToUpdate` other than the held key it never succeeds, never submits, and
returns the signing error once the block hash is fetched and the transaction
made. -/
theorem missing_signer_not_submitted (sol : Solana) (deps : DelegateNodeDeps)
    (c : RegistryClient) (hlib : c.client.SignsAsSpecified) :
    (∀ (key : PublicKey) (k : PrivateKey),
      c.signerGetter key = some k ↔ key = c.signer.PublicKey ∧ k = c.signer) ∧
    (∀ (op : WriteOp) (ins : Instruction) (payer : PublicKey) (m : AccountMeta),
      Call.NewTransaction [ins] payer ∈ (c.write sol deps op).calls →
      m ∈ ins.accounts → m.IsSigner = true → m.pubkey ≠ c.signer.PublicKey →
      (∀ sig, (c.write sol deps op).result ≠ .ok sig) ∧
      (∀ tx, Call.SendAndConfirmTransaction tx ∉ (c.write sol deps op).calls) ∧
      (∀ tx, Call.Sign tx ∈ (c.write sol deps op).calls →
        (c.write sol deps op).result = .error .signTransaction)) ∧
    (∀ (registryName : List Byte) (authority accountToUpdate : PublicKey) (value : Int),
      accountToUpdate ≠ c.signer.PublicKey →
      (∀ sig, (c.UpdateNodeOnline sol registryName authority accountToUpdate value).result
        ≠ .ok sig) ∧
      (∀ tx, Call.SendAndConfirmTransaction tx ∉
        (c.UpdateNodeOnline sol registryName authority accountToUpdate value).calls) ∧
      (∀ (registryPDA : PublicKey) (bump : Byte) (entry : PublicKey × Byte), 0 ≤ value →
        findRegistryPDA sol c.programID authority registryName = some (registryPDA, bump) →
        findRegistryEntryPDA sol c.programID accountToUpdate registryPDA = some entry →
        ∃ ins, buildUpdateNodeOnlineInstruction sol c.programID accountToUpdate registryPDA
            accountToUpdate value = .ok ins ∧
          ((ins.accounts.filter fun a => a.IsSigner).map fun a => a.pubkey)
            = [accountToUpdate] ∧
          ∀ recent tx, c.client.GetLatestBlockhash = .ok recent →
            c.client.NewTransaction [ins] recent c.signer.PublicKey = .ok tx →
            (c.UpdateNodeOnline sol registryName authority accountToUpdate value).result
              = .error .signTransaction)) := by
  refine ⟨fun key k => signerGetter_some c key k, ?_, ?_⟩
  · intro op ins payer m hcall hm hs hne
    rcases write_shape sol deps c op with ⟨pre, ins2, hpre, hrun⟩ | hno
    · rw [hrun] at hcall ⊢
      simp only [Run.after, List.mem_append] at hcall ⊢
      have hins : ins = ins2 := by
        rcases hcall with h1 | h2
        · have := hpre _ h1
          simp [Call.isLocal] at this
        · have := sendInstruction_newTransaction c ins2 _ _ h2
          simpa using this
      subst hins
      obtain ⟨g1, g2, g3, _⟩ := sendInstruction_missing_signer c hlib ins m hm hs hne
      refine ⟨g1, ?_, ?_⟩
      · intro tx h
        rcases h with h1 | h2
        · have := hpre _ h1
          simp [Call.isLocal] at this
        · exact g2 tx h2
      · intro tx h
        rcases h with h1 | h2
        · have := hpre _ h1
          simp [Call.isLocal] at this
        · exact g3 tx h2
    · exact absurd hcall (hno _ _)
  · intro registryName authority accountToUpdate value hne
    rcases UpdateNodeOnline_shape sol c registryName authority accountToUpdate value with
      ⟨e, h | h | h⟩ | ⟨ins, registryPDA, bump, hv, hreg, hb, hrun⟩
    · rw [h]
      refine ⟨fun sig hs => (by cases hs), fun tx ht => (by simp at ht), ?_⟩
      intro registryPDA bump entry hv hreg hentry
      exfalso
      by_cases hneg : value < 0
      · omega
      · obtain ⟨entryPDA, b2⟩ := entry
        simp [RegistryClient.UpdateNodeOnline, hneg, hreg, buildUpdateNodeOnlineInstruction,
          hentry, Run.after] at h
    · rw [h]
      refine ⟨fun sig hs => (by cases hs), fun tx ht => (by simp at ht), ?_⟩
      intro registryPDA bump entry hv hreg hentry
      exfalso
      have hneg : ¬ value < 0 := by omega
      obtain ⟨entryPDA, b2⟩ := entry
      simp [RegistryClient.UpdateNodeOnline, hneg, hreg, buildUpdateNodeOnlineInstruction,
        hentry, Run.after] at h
    · rw [h]
      refine ⟨fun sig hs => (by cases hs), fun tx ht => (by simp at ht), ?_⟩
      intro registryPDA bump entry hv hreg hentry
      exfalso
      have hneg : ¬ value < 0 := by omega
      obtain ⟨entryPDA, b2⟩ := entry
      simp [RegistryClient.UpdateNodeOnline, hneg, hreg, buildUpdateNodeOnlineInstruction,
        hentry, Run.after] at h
      obtain ⟨rest, hrest⟩ := sendInstruction_calls c
        ⟨c.programID,
          [(Meta entryPDA).WRITE, Meta registryPDA, (Meta accountToUpdate).SIGNER.WRITE],
          UpdateNodeOnlineDiscriminator ++
            (accountToUpdate.bytes ++ LittleEndian.PutUint32 (int32ToUint32 value))⟩
      rw [hrest] at h
      cases h.2
    · obtain ⟨entryPDA, b2, hentry, hacc⟩ :=
        buildUpdateNodeOnline_accounts sol _ _ _ _ _ ins hb
      have hm : (⟨accountToUpdate, true, true⟩ : AccountMeta) ∈ ins.accounts := by
        rw [hacc]
        simp
      obtain ⟨g1, g2, _, g4⟩ :=
        sendInstruction_missing_signer c hlib ins ⟨accountToUpdate, true, true⟩ hm rfl hne
      rw [hrun]
      refine ⟨g1, ?_, ?_⟩
      · intro tx h
        simp only [Run.after, List.mem_append, List.mem_cons, List.mem_singleton,
          reduceCtorEq, List.not_mem_nil, or_self, false_or] at h
        exact g2 tx h
      · intro registryPDA2 bump2 entry _ hreg2 hentry2
        rw [hreg] at hreg2
        cases hreg2
        refine ⟨ins, hb, ?_, ?_⟩
        · rw [hacc]
          rfl
        · intro recent tx h1 h2
          exact g4 recent tx h1 h2

theorem missing_signer_not_submitted_witness :
    (sampleSigningClient.UpdateNodeOnline sampleDeriver [97] (sampleKey 2) (sampleKey 4) 5).result
      = .error .signTransaction ∧
    (∀ tx, Call.SendAndConfirmTransaction tx ∉
      (sampleSigningClient.UpdateNodeOnline sampleDeriver [97] (sampleKey 2) (sampleKey 4)
        5).calls) ∧
    (sampleSigningClient.UpdateNodeOnline sampleDeriver [97] (sampleKey 9) (sampleKey 2) 5).result
      = .ok [1] :=
  match (missing_signer_not_submitted sampleDeriver sampleFailingDelegate sampleSigningClient
      sampleSigningTransport_signsAsSpecified).2.2 [97] (sampleKey 2) (sampleKey 4) 5
      (by decide) with
  | ⟨_, hno, h3⟩ =>
    match h3 (sampleKey 99) 254 (sampleKey 103, 254) (by decide) rfl rfl with
    | ⟨ins, _, _, hres⟩ =>
      ⟨hres [7] ⟨[ins], [7], sampleKey 2, []⟩ rfl rfl, hno, rfl⟩

/-- C23: `DelegateNode` does not read the error its builder returns. With the
registry address derived and the builder failing, it still fetches the block
hash and hands the nil instruction to `NewTransaction`; what it returns is the
failure of a later step (here the transaction creation, or the block hash
fetch on a transport that is offline), not the build failure. -/
theorem DelegateNode_ignores_build_failure :
    findRegistryPDA sampleDeriver sampleSigningClient.programID
      sampleSigningClient.signer.PublicKey [97] = some (sampleKey 99, 254) ∧
    sampleFailingDelegate.buildDelegateNodeAccountInstruction sampleSigningClient.programID
      sampleSigningClient.signer.PublicKey (sampleKey 99) (sampleKey 4)
      = .error .findEntryPDA ∧
    (sampleSigningClient.DelegateNode sampleDeriver sampleFailingDelegate [97] (sampleKey 4)).calls
      = [.findRegistryPDA (sampleKey 1) (sampleKey 2) [97],
         .buildDelegateNodeAccountInstruction, .GetLatestBlockhash,
         .NewTransactionOfNil (sampleKey 2)] ∧
    (sampleSigningClient.DelegateNode sampleDeriver sampleFailingDelegate [97] (sampleKey 4)).result
      = .error .createTransaction ∧
    ((⟨sampleKey 1, sampleOfflineTransport, ⟨[5], sampleKey 2⟩⟩ : RegistryClient).DelegateNode
      sampleDeriver sampleFailingDelegate [97] (sampleKey 4)).result
      = .error .getRecentBlockhash ∧
    ((⟨sampleKey 1, sampleOfflineTransport, ⟨[5], sampleKey 2⟩⟩ : RegistryClient).DelegateNode
      sampleDeriver sampleFailingDelegate [97] (sampleKey 4)).calls
      = [.findRegistryPDA (sampleKey 1) (sampleKey 2) [97],
         .buildDelegateNodeAccountInstruction, .GetLatestBlockhash] :=
  ⟨rfl, rfl, rfl, rfl, rfl, rfl⟩

end Registry
